import Mathlib

/-
  Verification development for the MongoCatalogApp catalog service
  (src/services/products.py, src/db.py, src/app.py).

  The data-access layer is a thin translation of REST-level operations into
  MongoDB commands.  We shallowly embed the MongoDB documents the service
  manipulates as association lists of BSON-like values, the `products`
  collection as a list of documents plus the unique-index flag that
  `ensure_indexes` installs on `sku`, and each service function of
  services/products.py as a Lean function from stores to `Except` results.

  Numbers are modelled as exact fractions compared by value (the service
  only ever averages and compares them), the store-internal identifier
  `_id` as a counter-assigned numeric field.  HTTP errors raised through fastapi.HTTPException are
  `SvcErr.http code detail`; a pymongo error that the service does NOT catch
  (there is no try/except anywhere in products.py) propagates as
  `SvcErr.store e`.
-/

/-- An exact number, kept as an explicit fraction.  BSON numbers (ints,
doubles, decimals) are compared and averaged by numeric value, so the
embedding compares fractions by cross-multiplication and never needs to
normalise. -/
structure Frac where
  num : Int
  den : Int
deriving DecidableEq

/-- Numeric equality of fractions (cross-multiplication; exact for
fractions with nonzero denominators, the only ones the service ever
builds). -/
def Frac.beq (a b : Frac) : Bool :=
  a.num * b.den = b.num * a.den

/-- Exact addition of fractions. -/
def Frac.add (a b : Frac) : Frac :=
  ⟨a.num * b.den + b.num * a.den, a.den * b.den⟩

/-- Sum of a list of fractions. -/
def Frac.sumL : List Frac → Frac
  | [] => ⟨0, 1⟩
  | x :: xs => Frac.add x (Frac.sumL xs)

/-- Division of a fraction by a count. -/
def Frac.divN (a : Frac) (n : Nat) : Frac :=
  ⟨a.num, a.den * n⟩

/-- The rational value of a fraction (for stating numeric facts). -/
def Frac.toRat (a : Frac) : ℚ :=
  (a.num : ℚ) / (a.den : ℚ)

/-- The fraction representing an integer. -/
def Frac.int (n : Int) : Frac :=
  ⟨n, 1⟩

/-- BSON-like values: strings, numbers, booleans, null, arrays, and
embedded documents (association lists, as Python dicts preserve insertion
order and MongoDB documents are ordered). -/
inductive BVal where
  | str (s : String)
  | num (q : Frac)
  | bool (b : Bool)
  | null
  | arr (xs : List BVal)
  | doc (fs : List (String × BVal))

/-- A BSON integer value. -/
def BVal.int (n : Int) : BVal :=
  .num (Frac.int n)

/-- A MongoDB document: ordered fields with (in practice) distinct names. -/
abbrev Doc := List (String × BVal)

mutual

/-- Boolean equality on BSON values (MongoDB equality on same-typed values). -/
def beqV : BVal → BVal → Bool
  | .str a, .str b => a = b
  | .num a, .num b => Frac.beq a b
  | .bool a, .bool b => a = b
  | .null, .null => true
  | .arr xs, .arr ys => beqL xs ys
  | .doc fs, .doc gs => beqD fs gs
  | _, _ => false

/-- Boolean equality on arrays of BSON values. -/
def beqL : List BVal → List BVal → Bool
  | [], [] => true
  | x :: xs, y :: ys => beqV x y && beqL xs ys
  | _, _ => false

/-- Boolean equality on documents. -/
def beqD : List (String × BVal) → List (String × BVal) → Bool
  | [], [] => true
  | (k, v) :: fs, (l, w) :: gs => k = l && beqV v w && beqD fs gs
  | _, _ => false

end

/-- Look up a field in a document (first occurrence). -/
def getF : Doc → String → Option BVal
  | [], _ => none
  | (k, v) :: fs, key => if k = key then some v else getF fs key

/-- Set a field in a document: replace the first occurrence in place
(MongoDB `$set` keeps the field position), append if absent. -/
def setF : Doc → String → BVal → Doc
  | [], key, v => [(key, v)]
  | (k, w) :: fs, key, v => if k = key then (key, v) :: fs else (k, w) :: setF fs key v

/-- Remove every occurrence of a field (the `{_id: 0}` projection). -/
def removeF (key : String) (d : Doc) : Doc :=
  d.filter (fun kv => kv.1 ≠ key)

/-- Split a character list on a separator character (semantics of splitting
a MongoDB dotted path such as `reviews.$.rating` on the dots). -/
def splitOnCh (c : Char) : List Char → List (List Char)
  | [] => [[]]
  | x :: xs =>
      if x = c then [] :: splitOnCh c xs
      else
        match splitOnCh c xs with
        | [] => [[x]]
        | g :: gs => (x :: g) :: gs

/-- Split a MongoDB key into its dotted-path segments. -/
def splitPath (s : String) : List String :=
  (splitOnCh '.' s.data).map String.mk

/-- Strip a character-list prefix, returning the remainder on success. -/
def stripPre : List Char → List Char → Option (List Char)
  | [], s => some s
  | _, [] => none
  | p :: ps, c :: cs => if p = c then stripPre ps cs else none

/-- Strip a string prefix, returning the remainder on success. -/
def stripPreS (p s : String) : Option String :=
  (stripPre p.data s.data).map String.mk

/-- MongoDB query-predicate matching of one dotted path against a target
value, descending into embedded documents and traversing arrays one level
per segment.  At the leaf, a value matches by equality or, for an array, by
containing an equal element.  A missing path matches a `null` target.
(The filters products.py issues use only string targets and the paths
`sku` and `reviews.review_id`; numeric array-index segments in filters are
not exercised and not modelled.) -/
def matchSegs : List String → BVal → BVal → Bool
  | [], v, t =>
      beqV v t ||
        (match v with
         | .arr xs => xs.any (fun x => beqV x t)
         | _ => false)
  | s :: rest, v, t =>
      match v with
      | .doc fs =>
          (match getF fs s with
           | some w => matchSegs rest w t
           | none => beqV t .null)
      | .arr xs =>
          xs.any (fun x =>
            match x with
            | .doc fs =>
                (match getF fs s with
                 | some w => matchSegs rest w t
                 | none => beqV t .null)
            | _ => false)
      | _ => beqV t .null

/-- A document matches a query filter iff it matches every condition. -/
def matchFilter (filter : List (String × BVal)) (d : Doc) : Bool :=
  filter.all (fun c => matchSegs (splitPath c.1) (.doc d) c.2)

/-- Aggregation field-path evaluation (`$reviews.rating` style): descend
through documents; mapping over an array collects the sub-values of its
document elements, skipping elements where the remaining path is missing. -/
def aggGet : List String → BVal → Option BVal
  | [], v => some v
  | s :: rest, .doc fs => (getF fs s).bind (fun w => aggGet rest w)
  | s :: rest, .arr xs =>
      some (.arr (xs.filterMap (fun x =>
        match x with
        | .doc fs => (getF fs s).bind (fun w => aggGet rest w)
        | _ => none)))
  | _ :: _, _ => none

/-- Numeric view of a value (aggregation operators such as `$avg` consider
only numeric inputs). -/
def toNum : BVal → Option Frac
  | .num q => some q
  | _ => none

/-- Write a value along a plain dotted path, as MongoDB `$set` does:
replace at the leaf, create missing intermediate documents, index into an
array by a numeric segment.  `none` models the server-side write errors
(cannot create a field inside a non-document, non-numeric index into an
array).  (MongoDB pads an array when setting past its end; the service
never issues such writes and the model rejects them instead.) -/
def setPath : List String → BVal → BVal → Option BVal
  | [], _, v => some v
  | s :: rest, .doc fs, v =>
      (setPath rest ((getF fs s).getD (.doc [])) v).map (fun w => .doc (setF fs s w))
  | s :: rest, .arr xs, v =>
      (match s.toNat? with
       | some i =>
           if h : i < xs.length then
             (setPath rest (xs.get ⟨i, h⟩) v).map (fun w => .arr (xs.set i w))
           else none
       | none => none)
  | _ :: _, _, _ => none

example : beqV (.arr [.null, .doc [("a", .int 3)]]) (.arr [.null, .doc [("a", .int 3)]]) = true := rfl
example : splitPath "reviews.review_id" = ["reviews", "review_id"] := rfl
example : matchFilter [("sku", .str "A")] [("sku", .str "A"), ("x", .null)] = true := rfl
example : matchFilter [("reviews.review_id", .str "r1")]
    [("sku", .str "A"), ("reviews", .arr [.doc [("review_id", .str "r1")]])] = true := rfl
example : setPath ["a", "b"] (.doc [("a", .doc [("b", .int 1)])]) (.int 2)
    = some (.doc [("a", .doc [("b", .int 2)])]) := rfl

/-
  The store: the `products` collection reached through
  db.get_products_collection(), together with the `_id` counter (ObjectId
  generation) and whether the unique index `idx_sku_unique` from
  ensure_indexes() is present.
-/

/-- The MongoDB `products` collection state. -/
structure Store where
  docs : List Doc
  nextId : Nat
  uniqueSkuIndex : Bool

/-- Server-side MongoDB errors surfaced to pymongo as PyMongoError
subclasses.  products.py installs no exception handler, so each of these
escapes the service function that triggers it. -/
inductive MErr where
  | emptySet            -- the update document gives `$set` an empty document
  | emptyArrayFilter    -- an arrayFilters entry has no top-level field
  | unusedArrayFilter   -- an arrayFilters identifier is unused by the update
  | noArrayFilter       -- a `$[ident]` segment has no matching array filter
  | posNoMatch          -- the positional operator found no matched element
  | badPath             -- cannot create or write the addressed field
  | pathMustExist       -- array-filter update on a missing array field
  | nonArrayField       -- array update addressed at a non-array value
  | duplicateKey        -- unique-index violation on insert
  | sizeNonArray        -- aggregation `$size` applied to a non-array
deriving DecidableEq

/-- Outcome channel of a service call: an HTTPException raised by
products.py (`http code detail`), an uncaught PyMongoError propagating out
of the service (`store e`), or a Python KeyError on a malformed payload. -/
inductive SvcErr where
  | http (code : Nat) (detail : String)
  | store (e : MErr)
  | keyError

/-- services/products.py `_not_found`: raise HTTPException 404.  (The
Python message wraps the sku in single quotes; the quotes are elided
here.) -/
def not_found (sku : String) : SvcErr :=
  .http 404 ("Product with SKU " ++ sku ++ " not found")

/-- `coll.find_one(filter)`: the first document of the collection matching
the filter. -/
def find_one (s : Store) (filter : List (String × BVal)) : Option Doc :=
  s.docs.find? (fun d => matchFilter filter d)

/-- `coll.find_one(filter, {"_id": 0})`: same, with `_id` projected away. -/
def find_one_noid (s : Store) (filter : List (String × BVal)) : Option Doc :=
  (find_one s filter).map (removeF "_id")

/-- The value the unique sku index keys a document under (a missing `sku`
indexes as null). -/
def skuKey (d : Doc) : BVal :=
  (getF d "sku").getD .null

/-- `coll.insert_one(doc)`: reject a duplicate of the unique sku index when
it is present, otherwise append the document with a fresh `_id` (documents
arriving with their own `_id` keep it). -/
def insert_one (s : Store) (pd : Doc) : Except MErr Store :=
  if s.uniqueSkuIndex && s.docs.any (fun e => beqV (skuKey e) (skuKey pd)) then
    .error .duplicateKey
  else
    .ok { s with
          docs := s.docs ++ [match getF pd "_id" with
                             | some _ => pd
                             | none => ("_id", .int (s.nextId : Int)) :: pd],
          nextId := s.nextId + 1 }

/-
  `coll.update_one(filter, {"$set": fields}, array_filters=afs)`.

  The update document is validated first (as the server parses it before
  matching): `$set` must be non-empty, every arrayFilters entry must carry
  a top-level field, and every arrayFilters identifier must be used by the
  update.  Then the first matching document is rewritten; `matched_count`
  is 0 or 1.
-/

/-- Query conditions that constrain elements of the array field `f`:
conditions on dotted paths below `f`, with the remaining path split. -/
def elemConds (query : List (String × BVal)) (f : String) :
    List (List String × BVal) :=
  query.filterMap (fun c =>
    (stripPreS (f ++ ".") c.1).map (fun rest => (splitPath rest, c.2)))

/-- An array element satisfies a list of element conditions. -/
def elemMatches (conds : List (List String × BVal)) (x : BVal) : Bool :=
  conds.all (fun c => matchSegs c.1 x c.2)

/-- Index of the first list element satisfying a predicate. -/
def firstIdx (p : BVal → Bool) : List BVal → Option Nat
  | [] => none
  | x :: xs => if p x then some 0 else (firstIdx p xs).map (fun n => n + 1)

/-- Position the `$` operator resolves to: the index of the first element
of array field `f` that satisfies the query conditions on `f` (none when
the field is missing or not an array, when the query does not constrain
`f`, or when no element matches — all MongoDB write errors). -/
def posIndex (query : List (String × BVal)) (f : String) (d : Doc) : Option Nat :=
  match getF d f with
  | some (.arr xs) =>
      let conds := elemConds query f
      if conds.isEmpty then none
      else firstIdx (fun x => elemMatches conds x) xs
  | _ => none

/-- Identifier of an arrayFilters entry: its first field name up to the
first dot (the service always builds `{"rev.<field>": value}` entries). -/
def identOf (fd : List (String × BVal)) : String :=
  match fd.head? with
  | some c => String.mk (c.1.data.takeWhile (fun ch => ch ≠ '.'))
  | none => ""

/-- Whether a path segment is an arrayFilters placeholder `$[ident]`. -/
def isAFSeg (s : String) : Bool :=
  match s.data with
  | '$' :: '[' :: rest => rest.getLast? = some ']'
  | _ => false

/-- The identifier inside a `$[ident]` segment. -/
def afIdent (s : String) : String :=
  String.mk ((s.data.drop 2).dropLast)

/-- An arrayFilters identifier is used by the update document when some
`$set` key contains the `$[ident]` segment. -/
def usedIdent (fields : List (String × BVal)) (ident : String) : Bool :=
  fields.any (fun kv => (splitPath kv.1).contains ("$[" ++ ident ++ "]"))

/-- Element conditions an arrayFilters identifier imposes, gathered from
every arrayFilters entry field `ident.<path>`. -/
def afConds (afs : List (List (String × BVal))) (ident : String) :
    List (List String × BVal) :=
  (afs.flatMap id).filterMap (fun c =>
    (stripPreS (ident ++ ".") c.1).map (fun rest => (splitPath rest, c.2)))

/-- Rewrite an array for a `$[ident]` update: walk the pre-update array
(`orig`, against which the filter is evaluated) and the current array in
step, patching exactly the elements whose pre-update value satisfies the
filter. -/
def applyAF (conds : List (List String × BVal)) (rest : List String) (v : BVal) :
    List BVal → List BVal → Option (List BVal)
  | [], [] => some []
  | o :: os, c :: cs => do
      let c' ← if elemMatches conds o then setPath rest c v else some c
      let cs' ← applyAF conds rest v os cs
      pure (c' :: cs')
  | _, _ => none

/-- Apply a `$set` key along a plain dotted path (no operator segment):
reject `$`-prefixed field names, then write through setPath. -/
def plainApply (segs : List String) (acc : Doc) (v : BVal) : Except MErr Doc :=
  if segs.any (fun sg => sg.data.head? = some '$') then .error .badPath
  else
    match setPath segs (.doc acc) v with
    | some (.doc acc') => .ok acc'
    | _ => .error .badPath

/-- Apply one `$set` key to the document being rewritten.  `orig` is the
document as matched (positional and arrayFilters addressing is resolved
against it); `acc` is the document with the previous keys already
applied. -/
def applyKey (query : List (String × BVal)) (afs : List (List (String × BVal)))
    (orig : Doc) (acc : Doc) (k : String) (v : BVal) : Except MErr Doc :=
  match splitPath k with
  | f :: sg :: rest =>
      if sg = "$" then
        (match posIndex query f orig with
         | none => .error .posNoMatch
         | some i =>
             (match getF acc f with
              | some (.arr xs) =>
                  if h : i < xs.length then
                    (match setPath rest (xs.get ⟨i, h⟩) v with
                     | some w => .ok (setF acc f (.arr (xs.set i w)))
                     | none => .error .badPath)
                  else .error .badPath
              | _ => .error .nonArrayField))
      else if isAFSeg sg then
        (let conds := afConds afs (afIdent sg)
         if conds.isEmpty then .error .noArrayFilter
         else
           match getF orig f, getF acc f with
           | some (.arr os), some (.arr xs) =>
               (match applyAF conds rest v os xs with
                | some xs' => .ok (setF acc f (.arr xs'))
                | none => .error .badPath)
           | none, _ => .error .pathMustExist
           | some _, _ => .error .nonArrayField)
      else plainApply (f :: sg :: rest) acc v
  | segs => plainApply segs acc v

/-- Apply a whole `$set` document to a matched document. -/
def applySet (query : List (String × BVal)) (afs : List (List (String × BVal)))
    (fields : List (String × BVal)) (d : Doc) : Except MErr Doc :=
  fields.foldlM (fun acc kv => applyKey query afs d acc kv.1 kv.2) d

/-- Rewrite the first document satisfying `p` with `f`, reporting how many
documents matched (0 or 1). -/
def updateFirst (p : Doc → Bool) (f : Doc → Except MErr Doc) :
    List Doc → Except MErr (List Doc × Nat)
  | [] => .ok ([], 0)
  | d :: ds =>
      if p d then do
        let d' ← f d
        pure (d' :: ds, 1)
      else do
        let (ds', n) ← updateFirst p f ds
        pure (d :: ds', n)

/-- `coll.update_one(filter, {"$set": fields}, array_filters=afs)`. -/
def update_one (s : Store) (filter : List (String × BVal))
    (fields : List (String × BVal)) (afs : List (List (String × BVal))) :
    Except MErr (Store × Nat) :=
  if fields.isEmpty then .error .emptySet
  else if afs.any (fun fd => fd.isEmpty) then .error .emptyArrayFilter
  else if afs.any (fun fd => !usedIdent fields (identOf fd)) then .error .unusedArrayFilter
  else
    (updateFirst (fun d => matchFilter filter d) (applySet filter afs fields) s.docs).map
      (fun r => ({ s with docs := r.1 }, r.2))

/-- Remove the first document satisfying `p`, reporting how many were
deleted (0 or 1). -/
def deleteFirst (p : Doc → Bool) : List Doc → List Doc × Nat
  | [] => ([], 0)
  | d :: ds =>
      if p d then (ds, 1)
      else
        let r := deleteFirst p ds
        (d :: r.1, r.2)

/-- `coll.delete_one(filter)`. -/
def delete_one (s : Store) (filter : List (String × BVal)) : Store × Nat :=
  let r := deleteFirst (fun d => matchFilter filter d) s.docs
  ({ s with docs := r.1 }, r.2)

example :
    update_one ⟨[[("sku", .str "A"), ("p", .int 1)]], 3, true⟩ [("sku", .str "A")]
      [("p", .int 2)] []
    = .ok (⟨[[("sku", .str "A"), ("p", .int 2)]], 3, true⟩, 1) := rfl
example :
    update_one ⟨[[("sku", .str "A")]], 3, true⟩ [("sku", .str "A")] [] []
    = .error .emptySet := rfl

/-
  services/products.py — the service functions.  Each maps the collection
  state and the validated payload to an `Except SvcErr` result; write
  operations also return the new state.  `find_one` results are returned
  exactly as Python does (an `Option Doc`, since `coll.find_one` yields
  None when nothing matches).
-/

/-- products.create_product, decomposed into its two store interactions:
the duplicate-sku pre-check reads state `s0` and the insert runs against
state `s1`.  A sequential call is `create_product s s`; under concurrency
another writer may commit between the two calls, which is exactly `s0 ≠ s1`.
Steps, as in the source: (1) `find_one` on the sku to pre-check duplicates,
raising HTTPException 409; (2) `insert_one` — a DuplicateKeyError raised
here by the unique index is NOT caught and propagates; (3) re-read and
return the created product without `_id`.  (`result.inserted_id` is an
ObjectId and always truthy, so the 500 branch of the source is dead and
not modelled.) -/
def create_product2 (s0 s1 : Store) (product_data : Doc) :
    Except SvcErr (Store × Option Doc) :=
  match getF product_data "sku" with
  | none => .error .keyError
  | some skuV =>
      if (find_one s0 [("sku", skuV)]).isSome then
        .error (.http 409 "SKU already exists")
      else
        match insert_one s1 product_data with
        | .error e => .error (.store e)
        | .ok s' => .ok (s', find_one_noid s' [("sku", skuV)])

/-- products.create_product run sequentially: both store interactions see
the same state. -/
def create_product (s : Store) (product_data : Doc) :
    Except SvcErr (Store × Option Doc) :=
  create_product2 s s product_data

/-- products.get_product: return a single product by SKU without `_id`,
404 when absent. -/
def get_product (s : Store) (sku : String) : Except SvcErr Doc :=
  match find_one_noid s [("sku", .str sku)] with
  | none => .error (not_found sku)
  | some d => .ok d

/-- products.get_all_products: all products with `_id` stripped. -/
def get_all_products (s : Store) : List Doc :=
  s.docs.map (removeF "_id")

/-- products.update_product: `$set` the supplied fields on the product
with the given sku; 404 when no document matched; return the re-read
product.  An update-document parse error raised by the server (for
example an empty `$set`) propagates uncaught. -/
def update_product (s : Store) (sku : String) (update_data : List (String × BVal)) :
    Except SvcErr (Store × Option Doc) :=
  match update_one s [("sku", .str sku)] update_data [] with
  | .error e => .error (.store e)
  | .ok (s', matched) =>
      if matched = 0 then .error (not_found sku)
      else .ok (s', find_one_noid s' [("sku", .str sku)])

/-- products.delete_product: delete one document by sku; 404 when none
deleted; return the confirmation message. -/
def delete_product (s : Store) (sku : String) : Except SvcErr (Store × Doc) :=
  let r := delete_one s [("sku", .str sku)]
  if r.2 = 0 then .error (not_found sku)
  else .ok (r.1, [("message", .str ("Product " ++ sku ++ " deleted successfully"))])

/-- products.update_review_positional: `$set` keys `reviews.$.<field>`
under the filter `{sku, reviews.review_id}`; the positional operator
patches the first review matched by the query. -/
def update_review_positional (s : Store) (sku : String) (review_id : String)
    (update_data : List (String × BVal)) : Except SvcErr (Store × Option Doc) :=
  let update_fields := update_data.map (fun kv => ("reviews.$." ++ kv.1, kv.2))
  match update_one s [("sku", .str sku), ("reviews.review_id", .str review_id)]
      update_fields [] with
  | .error e => .error (.store e)
  | .ok (s', matched) =>
      if matched = 0 then .error (not_found sku)
      else .ok (s', find_one_noid s' [("sku", .str sku)])

/-- products.update_review_array_filters: `$set` keys
`reviews.$[rev].<field>` with `array_filters=[{rev.<k>: v, ...}]` under the
filter `{sku}`; every review satisfying the filter criteria is patched. -/
def update_review_array_filters (s : Store) (sku : String)
    (filter_criteria : List (String × BVal)) (new_data : List (String × BVal)) :
    Except SvcErr (Store × Option Doc) :=
  let update_fields := new_data.map (fun kv => ("reviews.$[rev]." ++ kv.1, kv.2))
  let array_filters := [filter_criteria.map (fun kv => ("rev." ++ kv.1, kv.2))]
  match update_one s [("sku", .str sku)] update_fields array_filters with
  | .error e => .error (.store e)
  | .ok (s', matched) =>
      if matched = 0 then .error (not_found sku)
      else .ok (s', find_one_noid s' [("sku", .str sku)])

/-
  products.get_ratings_summary — the `$project` pipeline:
    review_count = $size($ifNull(reviews, []))
    avg_rating   = $cond(review_count > 0, $avg($reviews.rating), null)
-/

/-- Aggregation `$avg` over the value of `$reviews.rating`: average of the
numeric entries of an array result, a numeric result itself, else null. -/
def avgOf (v : Option BVal) : BVal :=
  match v with
  | some (.arr xs) =>
      let ns := xs.filterMap toNum
      if ns.isEmpty then .null else .num (Frac.divN (Frac.sumL ns) ns.length)
  | some (.num q) => .num q
  | _ => .null

/-- An inclusion projection field: kept with its value when present. -/
def inclF (d : Doc) (k : String) : Doc :=
  match getF d k with
  | some v => [(k, v)]
  | none => []

/-- One output row of the ratings-summary projection (included fields keep
their values when present; `$size` on a non-array raises). -/
def projectSummary (d : Doc) : Except MErr Doc :=
  let base :=
    match getF d "reviews" with
    | none => BVal.arr []
    | some .null => BVal.arr []
    | some v => v
  match base with
  | .arr xs =>
      .ok (inclF d "sku" ++ inclF d "name" ++ inclF d "price" ++
           [("review_count", .int xs.length),
            ("avg_rating",
              if 0 < xs.length then avgOf (aggGet ["reviews", "rating"] (.doc d))
              else .null)])
  | _ => .error .sizeNonArray

/-- Run the projection over every document, stopping at the first
server-side error. -/
def mapME (f : Doc → Except MErr Doc) : List Doc → Except MErr (List Doc)
  | [] => .ok []
  | d :: ds => do
      let r ← f d
      let rest ← mapME f ds
      pure (r :: rest)

/-- products.get_ratings_summary: project every document of the
collection; a server-side aggregation error propagates uncaught.  (Field
order inside each output row is immaterial; rows keep collection order.) -/
def get_ratings_summary (s : Store) : Except SvcErr (List Doc) :=
  match mapME projectSummary s.docs with
  | .error e => .error (.store e)
  | .ok rows => .ok rows

/-
  products.get_rating_for_sku — the `$match / $unwind / $group / $project`
  pipeline for one sku.
-/

/-- `$unwind: "$reviews"`: one output document per array element with
`reviews` replaced by the element; documents with a missing, null or empty
`reviews` produce nothing; a non-array value passes through unchanged. -/
def unwindReviews (d : Doc) : List Doc :=
  match getF d "reviews" with
  | some (.arr xs) => xs.map (fun x => setF d "reviews" x)
  | none => []
  | some .null => []
  | some _ => [d]

/-- First-occurrence deduplication by BSON equality (the `$group` key set;
MongoDB leaves group order unspecified, this model keeps first-appearance
order). -/
def dedupKeys : List BVal → List BVal → List BVal
  | _, [] => []
  | seen, x :: xs =>
      if seen.any (fun y => beqV y x) then dedupKeys seen xs
      else x :: dedupKeys (x :: seen) xs

/-- One `$group` row (keyed by `$sku`) after the final `$project` rename:
`name` by `$first`, `avg_rating` by `$avg` of `$reviews.rating`,
`review_count` by `$sum: 1`. -/
def groupRow (k : BVal) (members : List Doc) : Doc :=
  let nameF :=
    match members.head? with
    | some d =>
        (match getF d "name" with
         | some nv => [("name", nv)]
         | none => ([] : Doc))
    | none => ([] : Doc)
  let vals := members.filterMap (fun d => (aggGet ["reviews", "rating"] (.doc d)).bind toNum)
  let avg := if vals.isEmpty then BVal.null else .num (Frac.divN (Frac.sumL vals) vals.length)
  [("sku", k)] ++ nameF ++ [("avg_rating", avg), ("review_count", .int members.length)]

/-- products.get_rating_for_sku: run the pipeline, 404 when it returns no
rows, else the first row. -/
def get_rating_for_sku (s : Store) (sku : String) : Except SvcErr Doc :=
  let matched := s.docs.filter (fun d => matchFilter [("sku", .str sku)] d)
  let unwound := matched.flatMap unwindReviews
  let keys := dedupKeys [] (unwound.map skuKey)
  let rows := keys.map (fun k =>
    groupRow k (unwound.filter (fun d => beqV (skuKey d) k)))
  match rows with
  | [] => .error (not_found sku)
  | r :: _ => .ok r

example :
    create_product ⟨[], 0, true⟩ [("sku", .str "A1"), ("name", .str "W")]
    = .ok (⟨[[("_id", .int 0), ("sku", .str "A1"), ("name", .str "W")]], 1, true⟩,
           some [("sku", .str "A1"), ("name", .str "W")]) := rfl
example :
    get_rating_for_sku
      ⟨[[("_id", .int 0), ("sku", .str "A1"), ("name", .str "W"),
         ("reviews", .arr [.doc [("review_id", .str "r1"), ("rating", .int 3)],
                           .doc [("review_id", .str "r2"), ("rating", .int 5)]])]],
        1, true⟩ "A1"
    = .ok [("sku", .str "A1"), ("name", .str "W"),
           ("avg_rating", .num ⟨8, 2⟩), ("review_count", .int 2)] := rfl
example : (Frac.toRat ⟨8, 2⟩) = 4 := by norm_num [Frac.toRat]
example :
    update_review_positional
      ⟨[[("sku", .str "A"),
         ("reviews", .arr [.doc [("review_id", .str "r1"), ("rating", .int 3)],
                           .doc [("review_id", .str "r1"), ("rating", .int 5)]])]],
        1, true⟩ "A" "r1" [("rating", .int 4)]
    = .ok (⟨[[("sku", .str "A"),
              ("reviews", .arr [.doc [("review_id", .str "r1"), ("rating", .int 4)],
                                .doc [("review_id", .str "r1"), ("rating", .int 5)]])]],
             1, true⟩,
           some [("sku", .str "A"),
                 ("reviews", .arr [.doc [("review_id", .str "r1"), ("rating", .int 4)],
                                   .doc [("review_id", .str "r1"), ("rating", .int 5)]])]) := rfl
example :
    update_review_array_filters
      ⟨[[("sku", .str "A"),
         ("reviews", .arr [.doc [("review_id", .str "r1"), ("rating", .int 3)],
                           .doc [("review_id", .str "r1"), ("rating", .int 5)],
                           .doc [("review_id", .str "r2"), ("rating", .int 2)]])]],
        1, true⟩ "A" [("review_id", .str "r1")] [("rating", .int 1)]
    = .ok (⟨[[("sku", .str "A"),
              ("reviews", .arr [.doc [("review_id", .str "r1"), ("rating", .int 1)],
                                .doc [("review_id", .str "r1"), ("rating", .int 1)],
                                .doc [("review_id", .str "r2"), ("rating", .int 2)]])]],
             1, true⟩,
           some [("sku", .str "A"),
                 ("reviews", .arr [.doc [("review_id", .str "r1"), ("rating", .int 1)],
                                   .doc [("review_id", .str "r1"), ("rating", .int 1)],
                                   .doc [("review_id", .str "r2"), ("rating", .int 2)]])]) := rfl


/-
  Lemma kit: association-list documents.
-/

theorem getF_cons_ne (k key : String) (v : BVal) (fs : Doc) (h : k ≠ key) :
    getF ((k, v) :: fs) key = getF fs key := by
  simp [getF, h]

theorem getF_cons_self (k : String) (v : BVal) (fs : Doc) :
    getF ((k, v) :: fs) k = some v := by
  simp [getF]

theorem getF_setF_self (fs : Doc) (k : String) (v : BVal) :
    getF (setF fs k v) k = some v := by
  induction fs with
  | nil => simp [setF, getF]
  | cons p fs ih =>
      by_cases h : p.1 = k
      · simp [setF, h, getF]
      · simpa [setF, h, getF] using ih

theorem getF_setF_ne (fs : Doc) (k k' : String) (v : BVal) (h : k' ≠ k) :
    getF (setF fs k v) k' = getF fs k' := by
  induction fs with
  | nil => simp [setF, getF, Ne.symm h]
  | cons p fs ih =>
      by_cases hp : p.1 = k
      · subst hp
        simp [setF, getF, Ne.symm h]
      · by_cases hp' : p.1 = k'
        · simp [setF, hp, getF, hp', h]
        · simpa [setF, hp, getF, hp'] using ih

theorem setF_eq_of_getF (fs : Doc) (k : String) (v : BVal)
    (h : getF fs k = some v) : setF fs k v = fs := by
  induction fs with
  | nil => simp [getF] at h
  | cons p fs ih =>
      by_cases hp : p.1 = k
      · obtain ⟨k₀, v₀⟩ := p
        simp only at hp
        subst hp
        simp [getF] at h
        simp [setF, h]
      · obtain ⟨k₀, v₀⟩ := p
        simp only at hp
        simp [getF, hp] at h
        simp [setF, hp, ih h]

theorem getF_eq_none_iff (fs : Doc) (k : String) :
    getF fs k = none ↔ ∀ p ∈ fs, p.1 ≠ k := by
  induction fs with
  | nil => simp [getF]
  | cons p fs ih =>
      by_cases hp : p.1 = k
      · simp [getF, hp]
      · simp [getF, hp, ih]

theorem removeF_eq_of_getF_none (fs : Doc) (k : String)
    (h : getF fs k = none) : removeF k fs = fs := by
  rw [getF_eq_none_iff] at h
  simpa [removeF, List.filter_eq_self] using h

/-
  Lemma kit: leaf equality.
-/

theorem beqV_str_iff (v : BVal) (s : String) : beqV v (.str s) = true ↔ v = .str s := by
  cases v <;> simp [beqV]

theorem beqV_str_null (s : String) : beqV (BVal.str s) BVal.null = false := rfl

/-
  Lemma kit: dotted-path splitting.
-/

theorem splitOnCh_ne_nil (c : Char) (l : List Char) : splitOnCh c l ≠ [] := by
  induction l with
  | nil => simp [splitOnCh]
  | cons x xs ih =>
      by_cases h : x = c
      · simp [splitOnCh, h]
      · simp only [splitOnCh, h, if_false]
        cases hx : splitOnCh c xs with
        | nil => simp
        | cons g gs => simp

theorem splitOnCh_not_mem (c : Char) (l : List Char) (h : c ∉ l) :
    splitOnCh c l = [l] := by
  induction l with
  | nil => rfl
  | cons x xs ih =>
      have hx : x ≠ c := fun hh => h (hh ▸ List.mem_cons_self x xs)
      have hxs : c ∉ xs := fun hh => h (List.mem_cons_of_mem x hh)
      simp [splitOnCh, hx, ih hxs]

theorem splitOnCh_sep_cons (c : Char) (r : List Char) :
    splitOnCh c (c :: r) = [] :: splitOnCh c r := by
  simp [splitOnCh]

theorem splitOnCh_prefix_nodot (c : Char) (l r : List Char) (hl : c ∉ l) :
    splitOnCh c (l ++ c :: r) = l :: splitOnCh c r := by
  induction l with
  | nil => simp [splitOnCh]
  | cons x xs ih =>
      have hx : x ≠ c := fun hh => hl (hh ▸ List.mem_cons_self x xs)
      have hxs : c ∉ xs := fun hh => hl (List.mem_cons_of_mem x hh)
      rw [List.cons_append]
      simp only [splitOnCh, hx, if_false]
      rw [ih hxs]

theorem string_mk_data (s : String) : String.mk s.data = s := rfl

theorem string_data_append (a b : String) : (a ++ b).data = a.data ++ b.data := rfl

/-- Splitting a dot-free key leaves it whole. -/
theorem splitPath_plain (k : String) (hk : '.' ∉ k.data) : splitPath k = [k] := by
  simp [splitPath, splitOnCh_not_mem '.' k.data hk, string_mk_data]

/-- Splitting a positional-operator key produced by
update_review_positional. -/
theorem splitPath_pos (k : String) (hk : '.' ∉ k.data) :
    splitPath ("reviews.$." ++ k) = ["reviews", "$", k] := by
  have hdata : ("reviews.$." ++ k).data
      = "reviews".data ++ '.' :: ("$".data ++ '.' :: k.data) := rfl
  have h1 : '.' ∉ "reviews".data := by decide
  have h2 : '.' ∉ "$".data := by decide
  rw [splitPath, hdata, splitOnCh_prefix_nodot '.' _ _ h1,
      splitOnCh_prefix_nodot '.' _ _ h2, splitOnCh_not_mem '.' k.data hk]
  simp [string_mk_data]

/-- Splitting an arrayFilters key produced by update_review_array_filters. -/
theorem splitPath_af (k : String) (hk : '.' ∉ k.data) :
    splitPath ("reviews.$[rev]." ++ k) = ["reviews", "$[rev]", k] := by
  have hdata : ("reviews.$[rev]." ++ k).data
      = "reviews".data ++ '.' :: ("$[rev]".data ++ '.' :: k.data) := rfl
  have h1 : '.' ∉ "reviews".data := by decide
  have h2 : '.' ∉ "$[rev]".data := by decide
  rw [splitPath, hdata, splitOnCh_prefix_nodot '.' _ _ h1,
      splitOnCh_prefix_nodot '.' _ _ h2, splitOnCh_not_mem '.' k.data hk]
  simp [string_mk_data]

theorem stripPre_append (p s : List Char) : stripPre p (p ++ s) = some s := by
  induction p with
  | nil => simp [stripPre]
  | cons x xs ih => simp [stripPre, ih]

/-- Stripping the identifier prefix from an arrayFilters condition key. -/
theorem stripPreS_append (p k : String) : stripPreS p (p ++ k) = some k := by
  simp [stripPreS, string_data_append, stripPre_append, string_mk_data]

/-
  Lemma kit: first-match decompositions of the collection.
-/

theorem find_none_of_all_false {p : Doc → Bool} {l : List Doc}
    (h : ∀ d ∈ l, p d = false) : l.find? p = none := by
  induction l with
  | nil => rfl
  | cons d ds ih =>
      have hd := h d (List.mem_cons_self d ds)
      simp only [List.find?, hd]
      exact ih (fun x hx => h x (List.mem_cons_of_mem d hx))

theorem find_decomp {p : Doc → Bool} (a : List Doc) (m : Doc) (b : List Doc)
    (ha : ∀ d ∈ a, p d = false) (hm : p m = true) :
    (a ++ m :: b).find? p = some m := by
  induction a with
  | nil => simp [List.find?, hm]
  | cons d ds ih =>
      have hd := ha d (List.mem_cons_self d ds)
      simp only [List.cons_append, List.find?, hd]
      exact ih (fun x hx => ha x (List.mem_cons_of_mem d hx))

theorem updateFirst_none {p : Doc → Bool} {f : Doc → Except MErr Doc} {l : List Doc}
    (h : ∀ d ∈ l, p d = false) : updateFirst p f l = .ok (l, 0) := by
  induction l with
  | nil => rfl
  | cons d ds ih =>
      have hd := h d (List.mem_cons_self d ds)
      have ih' := ih (fun x hx => h x (List.mem_cons_of_mem d hx))
      simp [updateFirst, hd, ih']

theorem updateFirst_decomp {p : Doc → Bool} {f : Doc → Except MErr Doc}
    (a : List Doc) (m m' : Doc) (b : List Doc)
    (ha : ∀ d ∈ a, p d = false) (hm : p m = true) (hf : f m = .ok m') :
    updateFirst p f (a ++ m :: b) = .ok (a ++ m' :: b, 1) := by
  induction a with
  | nil => simp [updateFirst, hm, hf]
  | cons d ds ih =>
      have hd := ha d (List.mem_cons_self d ds)
      have ih' := ih (fun x hx => ha x (List.mem_cons_of_mem d hx))
      simp [updateFirst, hd, ih']

theorem deleteFirst_decomp {p : Doc → Bool}
    (a : List Doc) (m : Doc) (b : List Doc)
    (ha : ∀ d ∈ a, p d = false) (hm : p m = true) :
    deleteFirst p (a ++ m :: b) = (a ++ b, 1) := by
  induction a with
  | nil => simp [deleteFirst, hm]
  | cons d ds ih =>
      have hd := ha d (List.mem_cons_self d ds)
      have ih' := ih (fun x hx => ha x (List.mem_cons_of_mem d hx))
      simp [deleteFirst, hd, ih']

/-
  Lemma kit: the sku filter.
-/

theorem matchFilter_sku (v : BVal) (d : Doc) :
    matchFilter [("sku", v)] d
      = matchSegs ["sku"] (.doc d) v := by
  have h : splitPath "sku" = ["sku"] := rfl
  simp [matchFilter, h]

theorem matchSegs_sku_some (d : Doc) (w v : BVal) (h : getF d "sku" = some w) :
    matchSegs ["sku"] (.doc d) v = matchSegs [] w v := by
  simp [matchSegs, h]

theorem matchSegs_sku_none (d : Doc) (v : BVal) (h : getF d "sku" = none) :
    matchSegs ["sku"] (.doc d) v = beqV v .null := by
  simp [matchSegs, h]

/-- A document that fails the sku filter for a string value is not indexed
under that value by the unique sku index. -/
theorem skuKey_ne_of_nomatch (d : Doc) (s : String)
    (h : matchFilter [("sku", .str s)] d = false) :
    beqV (skuKey d) (.str s) = false := by
  rw [matchFilter_sku] at h
  cases hg : getF d "sku" with
  | none => simp [skuKey, hg, beqV]
  | some w =>
      rw [matchSegs_sku_some d w _ hg] at h
      simp only [matchSegs, Bool.or_eq_false_iff] at h
      simp [skuKey, hg, h.1]

/-
  The data model of spec section 3: valid Products and Reviews.
-/

/-- A valid Review (spec section 3): review_id and user_id strings, rating
an integer in [1,5], optional comment, boolean verified. -/
def validReview (v : BVal) : Bool :=
  match v with
  | .doc r =>
      (match getF r "review_id" with | some (.str _) => true | _ => false) &&
      (match getF r "user_id" with | some (.str _) => true | _ => false) &&
      (match getF r "rating" with
       | some (.num q) => q.den = 1 && 1 ≤ q.num && q.num ≤ 5
       | _ => false) &&
      (match getF r "comment" with
       | none => true | some (.str _) => true | some .null => true | _ => false) &&
      (match getF r "verified" with | some (.bool _) => true | _ => false)
  | _ => false

/-- A valid Product (spec section 3): distinct field names drawn from the
schema (so in particular no store-internal `_id`), a string sku, a string
name, a non-negative price with at most two fractional digits, an optional
string category, and a sequence of valid reviews. -/
def validProduct (P : Doc) : Bool :=
  decide (P.map Prod.fst).Nodup &&
  P.all (fun kv => decide (kv.1 ∈ ["sku", "name", "price", "category", "reviews"])) &&
  (match getF P "sku" with | some (.str _) => true | _ => false) &&
  (match getF P "name" with | some (.str _) => true | _ => false) &&
  (match getF P "price" with
   | some (.num q) => 0 < q.den && 0 ≤ q.num && (100 * q.num) % q.den = 0
   | _ => false) &&
  (match getF P "category" with
   | none => true | some (.str _) => true | _ => false) &&
  (match getF P "reviews" with
   | some (.arr rs) => rs.all validReview
   | _ => false)

/-- A valid product carries no store-internal identifier. -/
theorem validProduct_no_id (P : Doc) (h : validProduct P = true) :
    getF P "_id" = none := by
  rw [getF_eq_none_iff]
  intro p hp
  have hall : P.all
      (fun kv => decide (kv.1 ∈ ["sku", "name", "price", "category", "reviews"])) = true := by
    simp only [validProduct, Bool.and_eq_true] at h
    exact h.1.1.1.1.1.2
  rw [List.all_eq_true] at hall
  have hmem := hall p hp
  simp only [decide_eq_true_eq] at hmem
  intro hid
  rw [hid] at hmem
  simp at hmem

/-- A string value matches itself as a leaf. -/
theorem matchSegs_leaf_str (sk : String) :
    matchSegs [] (.str sk) (.str sk) = true := by
  simp [matchSegs, beqV]

/-- C1: for every valid Product P whose sku is not already present in the
store, create(P) followed by get(P.sku) returns a document equal to P with
the store-internal identifier removed. -/
theorem C1_create_then_get (s : Store) (P : Doc) (sk : String)
    (hval : validProduct P = true)
    (hsku : getF P "sku" = some (.str sk))
    (habs : ∀ d ∈ s.docs, matchFilter [("sku", .str sk)] d = false) :
    ∃ s', create_product s P = .ok (s', some P) ∧ get_product s' sk = .ok P := by
  have hid : getF P "_id" = none := validProduct_no_id P hval
  have hfind : find_one s [("sku", BVal.str sk)] = none :=
    find_none_of_all_false habs
  have hkey : skuKey P = .str sk := by simp [skuKey, hsku]
  have hdup : (s.docs.any (fun e => beqV (skuKey e) (skuKey P))) = false := by
    rw [List.any_eq_false]
    intro d hd
    rw [hkey]
    simp [skuKey_ne_of_nomatch d sk (habs d hd)]
  set nd : Doc := ("_id", .int (s.nextId : Int)) :: P with hnd
  have hndsku : getF nd "sku" = some (.str sk) := by
    rw [hnd, getF_cons_ne _ _ _ _ (by decide)]
    exact hsku
  have hndmatch : matchFilter [("sku", .str sk)] nd = true := by
    rw [matchFilter_sku, matchSegs_sku_some nd _ _ hndsku, matchSegs_leaf_str]
  have hins : insert_one s P = .ok
      { s with docs := s.docs ++ [nd], nextId := s.nextId + 1 } := by
    simp [insert_one, hdup, hid, hnd]
  have hfind' :
      find_one { s with docs := s.docs ++ [nd], nextId := s.nextId + 1 }
        [("sku", BVal.str sk)] = some nd := by
    unfold find_one
    exact find_decomp s.docs nd [] habs hndmatch
  have hstrip : removeF "_id" nd = P := by
    have h2 := removeF_eq_of_getF_none P "_id" hid
    rw [hnd]
    simp only [removeF, List.filter_cons] at h2 ⊢
    simpa using h2
  refine ⟨{ s with docs := s.docs ++ [nd], nextId := s.nextId + 1 }, ?_, ?_⟩
  · simp only [create_product, create_product2, hsku, hfind, Option.isSome_none,
      Bool.false_eq_true, if_false, hins]
    simp [find_one_noid, hfind', hstrip]
  · simp [get_product, find_one_noid, hfind', hstrip]

/-- Witness for C1 at a concrete store and product. -/
theorem C1_witness :
    ∃ s', create_product ⟨[], 0, true⟩
            [("sku", .str "A1"), ("name", .str "W"), ("price", .num ⟨999, 100⟩),
             ("category", .str "tools"), ("reviews", .arr [])]
            = .ok (s', some [("sku", .str "A1"), ("name", .str "W"),
                             ("price", .num ⟨999, 100⟩), ("category", .str "tools"),
                             ("reviews", .arr [])])
        ∧ get_product s' "A1"
            = .ok [("sku", .str "A1"), ("name", .str "W"), ("price", .num ⟨999, 100⟩),
                   ("category", .str "tools"), ("reviews", .arr [])] :=
  C1_create_then_get ⟨[], 0, true⟩ _ "A1" rfl rfl (by simp)

/-- C2 counterexample: when the pre-check read misses a concurrent insert
(the pre-check sees an empty collection, the insert runs against a
collection already holding sku A1 under the unique index), the
DuplicateKeyError raised at insert time escapes create as an uncaught
store error, not as the HTTP 409 Conflict. -/
theorem C2_counterexample :
    create_product2 ⟨[], 0, true⟩ ⟨[[("_id", .int 0), ("sku", .str "A1")]], 1, true⟩
        [("sku", .str "A1"), ("name", .str "W")]
      = .error (.store .duplicateKey)
    ∧ (SvcErr.store .duplicateKey ≠ SvcErr.http 409 "SKU already exists") := by
  constructor
  · rfl
  · intro h
    cases h

/-- C2 amended: create fails with HTTP 409 Conflict exactly when a document
with the same sku is visible to the pre-check read; a uniqueness violation
raised by the unique index at insert time (after the pre-check missed a
concurrent writer) instead propagates as an uncaught DuplicateKey store
error, not as the canonical Conflict. -/
theorem C2_conflict_paths :
    (∀ (s : Store) (pd : Doc) (skuV : BVal),
        getF pd "sku" = some skuV →
        (∃ d ∈ s.docs, matchFilter [("sku", skuV)] d = true) →
        create_product s pd = .error (.http 409 "SKU already exists"))
  ∧ (∀ (s0 s1 : Store) (pd : Doc) (sk : String),
        getF pd "sku" = some (.str sk) →
        (∀ d ∈ s0.docs, matchFilter [("sku", .str sk)] d = false) →
        s1.uniqueSkuIndex = true →
        (∃ d ∈ s1.docs, beqV (skuKey d) (.str sk) = true) →
        create_product2 s0 s1 pd = .error (.store .duplicateKey)) := by
  constructor
  · intro s pd skuV hsku hex
    have hfind : (find_one s [("sku", skuV)]).isSome = true := by
      unfold find_one
      rw [List.find?_isSome]
      obtain ⟨d, hd, hmatch⟩ := hex
      exact ⟨d, hd, hmatch⟩
    simp [create_product, create_product2, hsku, hfind]
  · intro s0 s1 pd sk hsku habs hidx hex
    have hfind : find_one s0 [("sku", BVal.str sk)] = none :=
      find_none_of_all_false habs
    have hkey : skuKey pd = .str sk := by simp [skuKey, hsku]
    have hdup : (s1.docs.any (fun e => beqV (skuKey e) (skuKey pd))) = true := by
      rw [List.any_eq_true]
      obtain ⟨d, hd, hb⟩ := hex
      exact ⟨d, hd, by rw [hkey]; exact hb⟩
    simp [create_product2, hsku, hfind, insert_one, hdup, hidx]

/-- Witness for the amended C2 at concrete states: a visible duplicate
yields 409, an insert-time unique-index violation yields the store
error. -/
theorem C2_conflict_paths_witness :
    create_product ⟨[[("_id", .int 0), ("sku", .str "A1")]], 1, true⟩
        [("sku", .str "A1"), ("name", .str "W")]
      = .error (.http 409 "SKU already exists")
    ∧ create_product2 ⟨[], 0, true⟩ ⟨[[("_id", .int 0), ("sku", .str "A1")]], 1, true⟩
        [("sku", .str "A1"), ("name", .str "W")]
      = .error (.store .duplicateKey) :=
  ⟨C2_conflict_paths.1 _ _ (.str "A1") rfl ⟨[("_id", .int 0), ("sku", .str "A1")], by simp, rfl⟩,
   C2_conflict_paths.2 _ _ _ "A1" rfl (by simp) rfl
     ⟨[("_id", .int 0), ("sku", .str "A1")], by simp, rfl⟩⟩

/-- C3 counterexample: on a store holding sku A1, update with an empty
field mapping does not succeed as a no-op write — the server rejects the
empty `$set` document and the error propagates uncaught. -/
theorem C3_counterexample :
    update_product ⟨[[("_id", .int 0), ("sku", .str "A1"), ("price", .int 5)]], 1, true⟩
        "A1" []
      = .error (.store .emptySet) := rfl

/-- C3 amended: update with an empty field mapping always fails with the
store-level empty-`$set` error (and therefore performs no write at all),
for every store and sku; it never reaches the document, so `get` is
unaffected, but the call itself errors instead of succeeding. -/
theorem C3_empty_update_errors (s : Store) (sku : String) :
    update_product s sku [] = .error (.store .emptySet) := rfl

/-- C10: when the store decomposes into a (possibly duplicated-sku)
collection `a ++ m :: b` where no document of `a` matches the sku and `m`
does, delete(sku) removes exactly `m` and leaves every other document —
including any later duplicates of the same sku in `b` — in place. -/
theorem C10_delete_first_match (s : Store) (a : List Doc) (m : Doc) (b : List Doc)
    (sk : String)
    (hs : s.docs = a ++ m :: b)
    (ha : ∀ d ∈ a, matchFilter [("sku", .str sk)] d = false)
    (hm : matchFilter [("sku", .str sk)] m = true) :
    delete_product s sk
      = .ok ({ s with docs := a ++ b },
             [("message", .str ("Product " ++ sk ++ " deleted successfully"))]) := by
  unfold delete_product delete_one
  rw [hs, deleteFirst_decomp a m b ha hm]
  simp

/-- Witness for C10 on a store holding two documents with the same sku
(no unique index): the first is removed, the duplicate stays. -/
theorem C10_witness :
    delete_product ⟨[[("_id", .int 0), ("sku", .str "A1"), ("v", .int 1)],
                     [("_id", .int 1), ("sku", .str "A1"), ("v", .int 2)]], 2, false⟩ "A1"
      = .ok (⟨[[("_id", .int 1), ("sku", .str "A1"), ("v", .int 2)]], 2, false⟩,
             [("message", .str ("Product " ++ "A1" ++ " deleted successfully"))]) :=
  C10_delete_first_match _ [] _ [[("_id", .int 1), ("sku", .str "A1"), ("v", .int 2)]]
    "A1" rfl (by simp) rfl

/-
  Lemma kit: `$set` with plain top-level keys (update_product).
-/

/-- Sequential `$set` of plain top-level fields. -/
def setAll (fields : List (String × BVal)) (d : Doc) : Doc :=
  fields.foldl (fun acc kv => setF acc kv.1 kv.2) d

theorem splitPath_ne_nil (k : String) : splitPath k ≠ [] := by
  simp [splitPath, splitOnCh_ne_nil]

theorem applyKey_plain (query : List (String × BVal)) (afs : List (List (String × BVal)))
    (orig acc : Doc) (k : String) (v : BVal)
    (hk : '.' ∉ k.data) (hd : k.data.head? ≠ some '$') :
    applyKey query afs orig acc k v = .ok (setF acc k v) := by
  have hsp : splitPath k = [k] := splitPath_plain k hk
  simp only [applyKey, hsp]
  simp [plainApply, hd, setPath]

theorem foldlM_applyKey_plain (query : List (String × BVal))
    (afs : List (List (String × BVal))) (orig : Doc)
    (fields : List (String × BVal)) (d : Doc)
    (hk : ∀ kv ∈ fields, '.' ∉ kv.1.data ∧ kv.1.data.head? ≠ some '$') :
    List.foldlM (fun acc kv => applyKey query afs orig acc kv.1 kv.2) d fields
      = .ok (setAll fields d) := by
  induction fields generalizing d with
  | nil => rfl
  | cons kv rest ih =>
      have hkv := hk kv (List.mem_cons_self kv rest)
      have hrest : ∀ p ∈ rest, '.' ∉ p.1.data ∧ p.1.data.head? ≠ some '$' :=
        fun p hp => hk p (List.mem_cons_of_mem kv hp)
      simp only [List.foldlM_cons,
        applyKey_plain query afs orig d kv.1 kv.2 hkv.1 hkv.2]
      simpa [setAll] using ih (setF d kv.1 kv.2) hrest

theorem applySet_plain (query : List (String × BVal)) (afs : List (List (String × BVal)))
    (fields : List (String × BVal)) (d : Doc)
    (hk : ∀ kv ∈ fields, '.' ∉ kv.1.data ∧ kv.1.data.head? ≠ some '$') :
    applySet query afs fields d = .ok (setAll fields d) :=
  foldlM_applyKey_plain query afs d fields d hk

theorem getF_setAll_not_mem (fields : List (String × BVal)) (d : Doc) (k : String)
    (h : ∀ kv ∈ fields, kv.1 ≠ k) :
    getF (setAll fields d) k = getF d k := by
  induction fields generalizing d with
  | nil => rfl
  | cons kv rest ih =>
      have hkv := h kv (List.mem_cons_self kv rest)
      have hrest : ∀ p ∈ rest, p.1 ≠ k := fun p hp => h p (List.mem_cons_of_mem kv hp)
      simp only [setAll, List.foldl_cons]
      rw [show List.foldl (fun acc kv => setF acc kv.1 kv.2) (setF d kv.1 kv.2) rest
            = setAll rest (setF d kv.1 kv.2) from rfl]
      rw [ih (setF d kv.1 kv.2) hrest]
      exact getF_setF_ne d kv.1 k kv.2 (Ne.symm hkv)

theorem getF_setAll_mem (fields : List (String × BVal)) (d : Doc) (k : String) (v : BVal)
    (hnd : (fields.map Prod.fst).Nodup) (hmem : (k, v) ∈ fields) :
    getF (setAll fields d) k = some v := by
  induction fields generalizing d with
  | nil => cases hmem
  | cons kv rest ih =>
      simp only [List.map_cons, List.nodup_cons] at hnd
      rcases List.mem_cons.mp hmem with hh | hh
      · subst hh
        simp only [setAll, List.foldl_cons]
        rw [show List.foldl (fun acc kv => setF acc kv.1 kv.2) (setF d k v) rest
              = setAll rest (setF d k v) from rfl]
        have hrest : ∀ p ∈ rest, p.1 ≠ k := by
          intro p hp hpk
          exact hnd.1 (List.mem_map.mpr ⟨p, hp, hpk⟩)
        rw [getF_setAll_not_mem rest _ k hrest]
        exact getF_setF_self d k v
      · simp only [setAll, List.foldl_cons]
        rw [show List.foldl (fun acc kv => setF acc kv.1 kv.2) (setF d kv.1 kv.2) rest
              = setAll rest (setF d kv.1 kv.2) from rfl]
        exact ih (setF d kv.1 kv.2) hnd.2 hh

/-- update_one on a decomposed collection: validations pass, the first
match `m` is rewritten to `m'`, everything else stays. -/
theorem update_one_decomp (s : Store) (filter : List (String × BVal))
    (fields : List (String × BVal)) (afs : List (List (String × BVal)))
    (a : List Doc) (m m' : Doc) (b : List Doc)
    (hs : s.docs = a ++ m :: b)
    (ha : ∀ d ∈ a, matchFilter filter d = false)
    (hm : matchFilter filter m = true)
    (hne : fields ≠ [])
    (hafs1 : afs.any (fun fd => fd.isEmpty) = false)
    (hafs2 : afs.any (fun fd => !usedIdent fields (identOf fd)) = false)
    (happ : applySet filter afs fields m = .ok m') :
    update_one s filter fields afs = .ok ({ s with docs := a ++ m' :: b }, 1) := by
  have hio : fields.isEmpty = false := by
    cases fields with
    | nil => exact absurd rfl hne
    | cons kv rest => rfl
  unfold update_one
  rw [hs]
  simp only [hio, hafs1, hafs2, Bool.false_eq_true, if_false,
    updateFirst_decomp a m m' b ha hm happ]
  rfl

/-- C8: update(sku, fields) with a non-empty mapping of plain top-level
field names rewrites only the matched product, setting exactly the named
fields: every top-level field not named in the mapping (the reviews
sequence included) keeps its value, and every named field gets the mapped
value. -/
theorem C8_update_only_named_fields (s : Store) (a : List Doc) (m : Doc) (b : List Doc)
    (sk : String) (ud : List (String × BVal))
    (hs : s.docs = a ++ m :: b)
    (ha : ∀ d ∈ a, matchFilter [("sku", .str sk)] d = false)
    (hm : matchFilter [("sku", .str sk)] m = true)
    (hne : ud ≠ [])
    (hkeys : ∀ kv ∈ ud, '.' ∉ kv.1.data ∧ kv.1.data.head? ≠ some '$')
    (hnd : (ud.map Prod.fst).Nodup) :
    update_product s sk ud
      = .ok ({ s with docs := a ++ setAll ud m :: b },
             find_one_noid { s with docs := a ++ setAll ud m :: b } [("sku", .str sk)])
      ∧ (∀ k, (∀ kv ∈ ud, kv.1 ≠ k) → getF (setAll ud m) k = getF m k)
      ∧ (∀ kv ∈ ud, getF (setAll ud m) kv.1 = some kv.2) := by
  have happ := applySet_plain [("sku", .str sk)] [] ud m hkeys
  have hup := update_one_decomp s [("sku", .str sk)] ud [] a m (setAll ud m) b
    hs ha hm hne rfl rfl happ
  refine ⟨?_, ?_, ?_⟩
  · simp [update_product, hup]
  · intro k hk
    exact getF_setAll_not_mem ud m k hk
  · intro kv hkv
    exact getF_setAll_mem ud m kv.1 kv.2 hnd hkv

/-- Witness for C8: patching price and name on a one-product store leaves
sku and reviews untouched and sets exactly the two named fields. -/
theorem C8_witness :
    update_product
        ⟨[[("_id", .int 0), ("sku", .str "A1"), ("name", .str "W"),
           ("price", .int 100), ("reviews", .arr [])]], 1, true⟩ "A1"
        [("price", .int 200), ("name", .str "N")]
      = .ok ({ docs := [setAll [("price", .int 200), ("name", .str "N")]
                          [("_id", .int 0), ("sku", .str "A1"), ("name", .str "W"),
                           ("price", .int 100), ("reviews", .arr [])]],
               nextId := 1, uniqueSkuIndex := true },
             find_one_noid
               { docs := [setAll [("price", .int 200), ("name", .str "N")]
                            [("_id", .int 0), ("sku", .str "A1"), ("name", .str "W"),
                             ("price", .int 100), ("reviews", .arr [])]],
                 nextId := 1, uniqueSkuIndex := true } [("sku", .str "A1")])
      ∧ (∀ k, (∀ kv ∈ [("price", BVal.int 200), ("name", BVal.str "N")], kv.1 ≠ k) →
          getF (setAll [("price", .int 200), ("name", .str "N")]
                  [("_id", .int 0), ("sku", .str "A1"), ("name", .str "W"),
                   ("price", .int 100), ("reviews", .arr [])]) k
            = getF [("_id", .int 0), ("sku", .str "A1"), ("name", .str "W"),
                    ("price", .int 100), ("reviews", .arr [])] k)
      ∧ (∀ kv ∈ [("price", BVal.int 200), ("name", BVal.str "N")],
          getF (setAll [("price", .int 200), ("name", .str "N")]
                  [("_id", .int 0), ("sku", .str "A1"), ("name", .str "W"),
                   ("price", .int 100), ("reviews", .arr [])]) kv.1 = some kv.2) :=
  C8_update_only_named_fields _ [] _ [] "A1" _ rfl (by simp) rfl (by simp)
    (by decide) (by decide)

/-
  Lemma kit: every successful `$set` key application rewrites exactly one
  top-level field of the document — the head segment of its dotted path.
-/

theorem setPath_doc_fields (sg : String) (rest : List String) (fs : Doc) (v : BVal)
    (fs' : Doc) (h : setPath (sg :: rest) (.doc fs) v = some (.doc fs')) :
    ∃ w, fs' = setF fs sg w := by
  simp only [setPath, Option.map_eq_some'] at h
  obtain ⟨w, hw, hu⟩ := h
  refine ⟨w, ?_⟩
  injection hu with h2
  exact h2.symm

theorem plainApply_ok_shape (f : String) (rest : List String) (acc : Doc) (v : BVal)
    (acc' : Doc) (hok : plainApply (f :: rest) acc v = .ok acc') :
    ∃ w, acc' = setF acc f w := by
  unfold plainApply at hok
  split at hok
  · cases hok
  · split at hok
    · rename_i fs' heq
      obtain ⟨w, hw⟩ := setPath_doc_fields f rest acc v fs' heq
      cases hok
      exact ⟨w, hw⟩
    · cases hok

theorem applyKey_ok_shape (query : List (String × BVal)) (afs : List (List (String × BVal)))
    (orig acc : Doc) (k : String) (v : BVal) (acc' : Doc) (f : String) (rest : List String)
    (hsp : splitPath k = f :: rest)
    (hok : applyKey query afs orig acc k v = .ok acc') :
    ∃ w, acc' = setF acc f w := by
  cases rest with
  | nil =>
      simp only [applyKey, hsp] at hok
      exact plainApply_ok_shape f [] acc v acc' hok
  | cons sg rest' =>
      simp only [applyKey, hsp] at hok
      by_cases hsg : sg = "$"
      · rw [if_pos hsg] at hok
        repeat' split at hok
        all_goals cases hok
        all_goals exact ⟨_, rfl⟩
      · rw [if_neg hsg] at hok
        by_cases haf : isAFSeg sg = true
        · rw [if_pos haf] at hok
          repeat' split at hok
          all_goals cases hok
          all_goals exact ⟨_, rfl⟩
        · rw [if_neg haf] at hok
          exact plainApply_ok_shape f (sg :: rest') acc v acc' hok

theorem applyKey_preserves_key (query : List (String × BVal))
    (afs : List (List (String × BVal))) (orig acc : Doc) (k : String) (v : BVal)
    (acc' : Doc) (key : String)
    (hk : (splitPath k).head? ≠ some key)
    (hok : applyKey query afs orig acc k v = .ok acc') :
    getF acc' key = getF acc key := by
  cases hsp : splitPath k with
  | nil => exact absurd hsp (splitPath_ne_nil k)
  | cons f rest =>
      obtain ⟨w, hw⟩ := applyKey_ok_shape query afs orig acc k v acc' f rest hsp hok
      rw [hsp] at hk
      simp only [List.head?_cons, ne_eq, Option.some.injEq] at hk
      rw [hw]
      exact getF_setF_ne acc f key w (Ne.symm hk)

theorem foldlM_preserves_key (query : List (String × BVal))
    (afs : List (List (String × BVal))) (orig : Doc)
    (fields : List (String × BVal)) (d d' : Doc) (key : String)
    (hk : ∀ kv ∈ fields, (splitPath kv.1).head? ≠ some key)
    (hok : List.foldlM (fun acc kv => applyKey query afs orig acc kv.1 kv.2) d fields
             = .ok d') :
    getF d' key = getF d key := by
  induction fields generalizing d with
  | nil =>
      simp only [List.foldlM_nil] at hok
      cases hok
      rfl
  | cons kv rest ih =>
      simp only [List.foldlM_cons] at hok
      cases happ : applyKey query afs orig d kv.1 kv.2 with
      | error e =>
          rw [happ] at hok
          cases hok
      | ok mid =>
          rw [happ] at hok
          have h1 := applyKey_preserves_key query afs orig d kv.1 kv.2 mid key
            (hk kv (List.mem_cons_self kv rest)) happ
          have h2 := ih mid (fun p hp => hk p (List.mem_cons_of_mem kv hp)) hok
          rw [h2, h1]

theorem applySet_preserves_key (filter : List (String × BVal))
    (afs : List (List (String × BVal)))
    (fields : List (String × BVal)) (d d' : Doc) (key : String)
    (hk : ∀ kv ∈ fields, (splitPath kv.1).head? ≠ some key)
    (hok : applySet filter afs fields d = .ok d') :
    getF d' key = getF d key :=
  foldlM_preserves_key filter afs d fields d d' key hk hok

theorem updateFirst_preserves (p : Doc → Bool) (f : Doc → Except MErr Doc)
    (l l' : List Doc) (n : Nat) (key : String)
    (hf : ∀ d d', f d = .ok d' → getF d' key = getF d key)
    (hok : updateFirst p f l = .ok (l', n)) :
    l'.map (fun d => getF d key) = l.map (fun d => getF d key) := by
  induction l generalizing l' n with
  | nil =>
      simp only [updateFirst] at hok
      cases hok
      rfl
  | cons d ds ih =>
      simp only [updateFirst] at hok
      split at hok
      · cases happ : f d with
        | error e =>
            rw [happ] at hok
            cases hok
        | ok d' =>
            rw [happ] at hok
            cases hok
            simp [hf d d' happ]
      · cases hrec : updateFirst p f ds with
        | error e =>
            rw [hrec] at hok
            cases hok
        | ok r =>
            obtain ⟨ds', n₀⟩ := r
            rw [hrec] at hok
            cases hok
            simp [ih ds' n₀ hrec]

/-- C9 counterexample: at the engine level the sku is not immutable —
update("A", {sku: "B"}) rewrites the stored sku from A to B (after which
the product is gone under A and reachable under B, and the call even
returns None because the post-update re-read misses). -/
theorem C9_counterexample :
    update_product ⟨[[("_id", .int 0), ("sku", .str "A"), ("name", .str "W")]], 1, true⟩
        "A" [("sku", .str "B")]
      = .ok (⟨[[("_id", .int 0), ("sku", .str "B"), ("name", .str "W")]], 1, true⟩, none)
    ∧ get_product ⟨[[("_id", .int 0), ("sku", .str "B"), ("name", .str "W")]], 1, true⟩ "A"
      = .error (not_found "A")
    ∧ get_product ⟨[[("_id", .int 0), ("sku", .str "B"), ("name", .str "W")]], 1, true⟩ "B"
      = .ok [("sku", .str "B"), ("name", .str "W")] :=
  ⟨rfl, rfl, rfl⟩

/-- C9 amended: the sku of every stored document survives update(sku,
fields) whenever the mapping does not address the top-level field `sku`
(neither as a key nor as a dotted path under it) — which holds for every
request through the HTTP layer, whose ProductUpdate model has no sku
field.  The engine itself, however, rewrites the sku when the mapping
names it (see the counterexample). -/
theorem C9_sku_preserved_when_not_named (s : Store) (sk : String)
    (ud : List (String × BVal)) (s' : Store) (r : Option Doc)
    (hk : ∀ kv ∈ ud, (splitPath kv.1).head? ≠ some "sku")
    (hok : update_product s sk ud = .ok (s', r)) :
    s'.docs.map skuKey = s.docs.map skuKey := by
  unfold update_product at hok
  cases hu : update_one s [("sku", .str sk)] ud [] with
  | error e =>
      rw [hu] at hok
      cases hok
  | ok pr =>
      obtain ⟨s₂, matched⟩ := pr
      rw [hu] at hok
      have hok2 : (if matched = 0 then (.error (not_found sk) : Except SvcErr (Store × Option Doc))
          else .ok (s₂, find_one_noid s₂ [("sku", .str sk)])) = .ok (s', r) := hok
      by_cases hm0 : matched = 0
      · rw [if_pos hm0] at hok2
        cases hok2
      · rw [if_neg hm0] at hok2
        cases hok2
        unfold update_one at hu
        split at hu
        · cases hu
        · split at hu
          · cases hu
          · split at hu
            · cases hu
            · cases hupf : updateFirst (fun d => matchFilter [("sku", .str sk)] d)
                  (applySet [("sku", .str sk)] [] ud) s.docs with
              | error e =>
                  rw [hupf] at hu
                  cases hu
              | ok r₂ =>
                  obtain ⟨l', n⟩ := r₂
                  rw [hupf] at hu
                  cases hu
                  have hmap := updateFirst_preserves _ _ s.docs l' n "sku"
                    (fun d d' hdd => applySet_preserves_key _ _ ud d d' "sku" hk hdd)
                    hupf
                  have hcomp : ∀ l : List Doc,
                      l.map skuKey = (l.map (fun d => getF d "sku")).map
                        (fun o => o.getD BVal.null) := by
                    intro l
                    rw [List.map_map]
                    rfl
                  rw [hcomp, hcomp, hmap]

/-- Witness for the amended C9: a name-only update leaves the stored sku
untouched. -/
theorem C9_witness :
    (Store.mk [[("_id", .int 0), ("sku", .str "A"), ("name", .str "N")]] 1 true).docs.map skuKey
      = (Store.mk [[("_id", .int 0), ("sku", .str "A"), ("name", .str "W")]] 1 true).docs.map skuKey :=
  C9_sku_preserved_when_not_named
    ⟨[[("_id", .int 0), ("sku", .str "A"), ("name", .str "W")]], 1, true⟩ "A"
    [("name", .str "N")]
    ⟨[[("_id", .int 0), ("sku", .str "A"), ("name", .str "N")]], 1, true⟩
    (some [("sku", .str "A"), ("name", .str "N")])
    (by decide) rfl

/-
  Lemma kit: the positional (`$`) update of update_review_positional.
-/

theorem firstIdx_ext (p q : BVal → Bool) (l : List BVal) (h : ∀ x, p x = q x) :
    firstIdx p l = firstIdx q l := by
  induction l with
  | nil => rfl
  | cons x xs ih => simp [firstIdx, h x, ih]

theorem firstIdx_lt_length (p : BVal → Bool) (l : List BVal) (i : Nat)
    (h : firstIdx p l = some i) : i < l.length := by
  induction l generalizing i with
  | nil => cases h
  | cons x xs ih =>
      simp only [firstIdx] at h
      split at h
      · cases h
        simp
      · rw [Option.map_eq_some'] at h
        obtain ⟨j, hj, hji⟩ := h
        have := ih j hj
        subst hji
        simp only [List.length_cons]
        omega

theorem list_set_self {α : Type} (xs : List α) (i : Nat) (h : i < xs.length) :
    xs.set i (xs.get ⟨i, h⟩) = xs := by
  induction xs generalizing i with
  | nil => rfl
  | cons x rest ih =>
      cases i with
      | zero => rfl
      | succ j =>
          simp only [List.set_cons_succ, List.cons.injEq, true_and]
          exact ih j (by simpa using h)

theorem setF_setF (d : Doc) (key : String) (u w : BVal) :
    setF (setF d key u) key w = setF d key w := by
  induction d with
  | nil => simp [setF]
  | cons p fs ih =>
      by_cases hp : p.1 = key
      · simp [setF, hp]
      · simp [setF, hp, ih]

/-- A patch of plain review fields applied to one review value. -/
def patchTop (ud : List (String × BVal)) (r : BVal) : BVal :=
  match r with
  | .doc fs => .doc (setAll ud fs)
  | r => r

/-- One positional `$set` key on a document whose `reviews` array is
addressed at `i` (resolved once against the matched document `orig`). -/
theorem applyKey_pos (q : List (String × BVal)) (orig acc : Doc) (k : String) (v : BVal)
    (i : Nat) (xs : List BVal) (fs : Doc)
    (hk : '.' ∉ k.data)
    (hpos : posIndex q "reviews" orig = some i)
    (hacc : getF acc "reviews" = some (.arr xs))
    (hlen : i < xs.length)
    (hget : xs.get ⟨i, hlen⟩ = .doc fs) :
    applyKey q [] orig acc ("reviews.$." ++ k) v
      = .ok (setF acc "reviews" (.arr (xs.set i (.doc (setF fs k v))))) := by
  simp only [applyKey, splitPath_pos k hk]
  rw [if_pos trivial, hpos]
  simp only
  rw [hacc]
  simp only
  rw [dif_pos hlen, hget]
  simp [setPath]

theorem firstIdx_get (p : BVal → Bool) (l : List BVal) (i : Nat)
    (h : firstIdx p l = some i) (hlen : i < l.length) :
    p (l.get ⟨i, hlen⟩) = true := by
  induction l generalizing i with
  | nil => cases h
  | cons x xs ih =>
      simp only [firstIdx] at h
      split at h
      · cases h
        assumption
      · rw [Option.map_eq_some'] at h
        obtain ⟨j, hj, hji⟩ := h
        subst hji
        exact ih j hj (by simpa using hlen)

theorem matchSku_congr (d₁ d₂ : Doc) (t : BVal) (h : getF d₁ "sku" = getF d₂ "sku") :
    matchSegs ["sku"] (.doc d₁) t = matchSegs ["sku"] (.doc d₂) t := by
  cases hg : getF d₂ "sku" with
  | none =>
      rw [matchSegs_sku_none d₂ t hg, matchSegs_sku_none d₁ t (h.trans hg)]
  | some w =>
      rw [matchSegs_sku_some d₂ w t hg, matchSegs_sku_some d₁ w t (h.trans hg)]

/-- The whole positional `$set` document, folded over the update fields:
only the review at the resolved index `i` is rewritten, field by field. -/
theorem posFold (q : List (String × BVal)) (orig : Doc) (i : Nat)
    (ud : List (String × BVal)) :
    ∀ (acc : Doc) (xs : List BVal) (fs : Doc) (hlen : i < xs.length),
    (∀ kv ∈ ud, '.' ∉ kv.1.data) →
    posIndex q "reviews" orig = some i →
    getF acc "reviews" = some (.arr xs) →
    xs.get ⟨i, hlen⟩ = .doc fs →
    List.foldlM (fun acc kv => applyKey q [] orig acc kv.1 kv.2) acc
        (ud.map (fun kv => ("reviews.$." ++ kv.1, kv.2)))
      = .ok (setF acc "reviews" (.arr (xs.set i (.doc (setAll ud fs))))) := by
  induction ud with
  | nil =>
      intro acc xs fs hlen hk hpos hacc hget
      simp only [List.map_nil, List.foldlM_nil, setAll, List.foldl_nil]
      rw [show BVal.doc fs = xs.get ⟨i, hlen⟩ from hget.symm, list_set_self xs i hlen,
          setF_eq_of_getF acc "reviews" _ hacc]
      rfl
  | cons kv rest ih =>
      intro acc xs fs hlen hk hpos hacc hget
      simp only [List.map_cons, List.foldlM_cons]
      rw [applyKey_pos q orig acc kv.1 kv.2 i xs fs
        (hk kv (List.mem_cons_self kv rest)) hpos hacc hlen hget]
      have hlen' : i < (xs.set i (.doc (setF fs kv.1 kv.2))).length := by
        simpa [List.length_set] using hlen
      have hacc' : getF (setF acc "reviews" (.arr (xs.set i (.doc (setF fs kv.1 kv.2)))))
          "reviews" = some (.arr (xs.set i (.doc (setF fs kv.1 kv.2)))) :=
        getF_setF_self acc "reviews" _
      have hget' : (xs.set i (.doc (setF fs kv.1 kv.2))).get ⟨i, hlen'⟩
          = .doc (setF fs kv.1 kv.2) := by simp
      have hrest : ∀ p ∈ rest, '.' ∉ p.1.data :=
        fun p hp => hk p (List.mem_cons_of_mem kv hp)
      have hstep := ih (setF acc "reviews" (.arr (xs.set i (.doc (setF fs kv.1 kv.2)))))
        (xs.set i (.doc (setF fs kv.1 kv.2))) (setF fs kv.1 kv.2) hlen' hrest hpos hacc' hget'
      exact hstep.trans (by rw [List.set_set, setF_setF]; rfl)

/-- C5: on a product matched by sku whose reviews array has its FIRST
review with the given review_id at index i (any further occurrences, in
particular a second one, sit at larger indices), updateReviewByPosition
patches exactly the review at index i — `rs.set i` — and every other
element of the array, including every later occurrence of the same
review_id, is untouched. -/
theorem C5_positional_updates_first_only (s : Store) (a : List Doc) (m : Doc)
    (b : List Doc) (sk rid : String) (ud : List (String × BVal))
    (rs : List BVal) (i : Nat) (fs : Doc)
    (hs : s.docs = a ++ m :: b)
    (ha : ∀ d ∈ a, matchFilter [("sku", .str sk)] d = false)
    (hm : matchFilter [("sku", .str sk)] m = true)
    (hrev : getF m "reviews" = some (.arr rs))
    (hidx : firstIdx (fun r => matchSegs ["review_id"] r (.str rid)) rs = some i)
    (hlen : i < rs.length)
    (hdoc : rs.get ⟨i, hlen⟩ = .doc fs)
    (hne : ud ≠ [])
    (hk : ∀ kv ∈ ud, '.' ∉ kv.1.data) :
    update_review_positional s sk rid ud
      = .ok ({ s with docs :=
                 a ++ setF m "reviews" (.arr (rs.set i (.doc (setAll ud fs)))) :: b },
             some (removeF "_id"
               (setF m "reviews" (.arr (rs.set i (.doc (setAll ud fs))))))) := by
  have hsku : matchSegs ["sku"] (.doc m) (.str sk) = true := by
    rw [← matchFilter_sku]
    exact hm
  have hpos : posIndex [("sku", .str sk), ("reviews.review_id", .str rid)] "reviews" m
      = some i := by
    unfold posIndex
    rw [hrev]
    have hconds : elemConds [("sku", BVal.str sk), ("reviews.review_id", BVal.str rid)]
        "reviews" = [(["review_id"], BVal.str rid)] := rfl
    simp only [hconds, List.isEmpty_cons, Bool.false_eq_true, if_false]
    rw [firstIdx_ext _ (fun r => matchSegs ["review_id"] r (.str rid)) rs
      (fun x => by simp [elemMatches])]
    exact hidx
  have hrid : matchSegs ["reviews", "review_id"] (.doc m) (.str rid) = true := by
    have hp := firstIdx_get _ rs i hidx hlen
    rw [hdoc] at hp
    simp only [matchSegs, hrev]
    rw [List.any_eq_true]
    refine ⟨rs.get ⟨i, hlen⟩, List.get_mem rs i hlen, ?_⟩
    rw [hdoc]
    simpa [matchSegs] using hp
  have hmfull : matchFilter [("sku", .str sk), ("reviews.review_id", .str rid)] m = true := by
    have h1 : splitPath "sku" = ["sku"] := rfl
    have h2 : splitPath "reviews.review_id" = ["reviews", "review_id"] := rfl
    simp [matchFilter, h1, h2, hsku, hrid]
  have hafull : ∀ d ∈ a,
      matchFilter [("sku", .str sk), ("reviews.review_id", .str rid)] d = false := by
    intro d hd
    have h1 : splitPath "sku" = ["sku"] := rfl
    have hsk := ha d hd
    rw [matchFilter_sku] at hsk
    simp [matchFilter, h1, hsk]
  have happ : applySet [("sku", .str sk), ("reviews.review_id", .str rid)] []
      (ud.map (fun kv => ("reviews.$." ++ kv.1, kv.2))) m
      = .ok (setF m "reviews" (.arr (rs.set i (.doc (setAll ud fs))))) :=
    posFold _ m i ud m rs fs hlen hk hpos hrev hdoc
  have hne' : ud.map (fun kv => ("reviews.$." ++ kv.1, kv.2)) ≠ [] := by
    cases ud with
    | nil => exact absurd rfl hne
    | cons kv rest => simp
  have hup := update_one_decomp s _ _ [] a m _ b hs hafull hmfull hne' rfl rfl happ
  have hsku' : getF (setF m "reviews" (.arr (rs.set i (.doc (setAll ud fs))))) "sku"
      = getF m "sku" := getF_setF_ne m "reviews" "sku" _ (by decide)
  have hmatch' : matchFilter [("sku", .str sk)]
      (setF m "reviews" (.arr (rs.set i (.doc (setAll ud fs))))) = true := by
    rw [matchFilter_sku, matchSku_congr _ m (.str sk) hsku', ← matchFilter_sku]
    exact hm
  have hfind : find_one
      { s with docs := a ++ setF m "reviews" (.arr (rs.set i (.doc (setAll ud fs)))) :: b }
      [("sku", .str sk)]
      = some (setF m "reviews" (.arr (rs.set i (.doc (setAll ud fs))))) := by
    unfold find_one
    exact find_decomp a _ b ha hmatch'
  simp [update_review_positional, hup, find_one_noid, hfind]

/-- Witness for C5: two reviews share review_id r1; the positional update
patches the first (rating 3 → 4) and provably leaves the second (rating 5)
untouched. -/
theorem C5_witness :
    update_review_positional
      ⟨[[("sku", .str "A"),
         ("reviews", .arr [.doc [("review_id", .str "r1"), ("rating", .int 3)],
                           .doc [("review_id", .str "r1"), ("rating", .int 5)]])]],
        1, true⟩ "A" "r1" [("rating", .int 4)]
      = .ok (⟨[setF [("sku", .str "A"),
                     ("reviews", .arr [.doc [("review_id", .str "r1"), ("rating", .int 3)],
                                       .doc [("review_id", .str "r1"), ("rating", .int 5)]])]
                 "reviews"
                 (.arr ([.doc [("review_id", .str "r1"), ("rating", .int 3)],
                         .doc [("review_id", .str "r1"), ("rating", .int 5)]].set 0
                    (.doc (setAll [("rating", .int 4)]
                       [("review_id", .str "r1"), ("rating", .int 3)]))))],
              1, true⟩,
             some (removeF "_id"
               (setF [("sku", .str "A"),
                      ("reviews", .arr [.doc [("review_id", .str "r1"), ("rating", .int 3)],
                                        .doc [("review_id", .str "r1"), ("rating", .int 5)]])]
                  "reviews"
                  (.arr ([.doc [("review_id", .str "r1"), ("rating", .int 3)],
                          .doc [("review_id", .str "r1"), ("rating", .int 5)]].set 0
                     (.doc (setAll [("rating", .int 4)]
                        [("review_id", .str "r1"), ("rating", .int 3)]))))))) :=
  C5_positional_updates_first_only _ [] _ [] "A" "r1" [("rating", .int 4)]
    [.doc [("review_id", .str "r1"), ("rating", .int 3)],
     .doc [("review_id", .str "r1"), ("rating", .int 5)]] 0
    [("review_id", .str "r1"), ("rating", .int 3)]
    rfl (by simp) rfl rfl rfl (by decide) rfl (by simp) (by decide)

/-
  Lemma kit: the arrayFilters (`$[rev]`) update of
  update_review_array_filters.
-/

/-- Whether a review satisfies the exact-match filter criteria. -/
def matchesCrit (crit : List (String × BVal)) (x : BVal) : Bool :=
  crit.all (fun c => matchSegs (splitPath c.1) x c.2)

theorem identOf_rev (k : String) (v : BVal) (rest : List (String × BVal)) :
    identOf (("rev." ++ k, v) :: rest) = "rev" := rfl

theorem afConds_rev (crit : List (String × BVal)) :
    afConds [crit.map (fun kv => ("rev." ++ kv.1, kv.2))] "rev"
      = crit.map (fun kv => (splitPath kv.1, kv.2)) := by
  unfold afConds
  simp only [List.flatMap_cons, List.flatMap_nil, List.append_nil, id_eq]
  induction crit with
  | nil => rfl
  | cons kv rest ih =>
      have hstr : stripPreS ("rev" ++ ".") ("rev." ++ kv.1) = some kv.1 :=
        stripPreS_append ("rev" ++ ".") kv.1
      simp only [List.map_cons, List.filterMap_cons, hstr, Option.map_some']
      rw [ih]

theorem elemMatches_crit (crit : List (String × BVal)) (x : BVal) :
    elemMatches (crit.map (fun kv => (splitPath kv.1, kv.2))) x = matchesCrit crit x := by
  unfold elemMatches matchesCrit
  induction crit with
  | nil => rfl
  | cons kv rest ih => simp only [List.map_cons, List.all_cons, ih]

/-- applyAF patches, pairwise, exactly the elements whose pre-update value
satisfies the filter (matched current values being documents). -/
theorem applyAF_zip (conds : List (List String × BVal)) (k : String) (v : BVal)
    (os xs : List BVal)
    (h : List.Forall₂ (fun o x => elemMatches conds o = true → ∃ fs, x = .doc fs) os xs) :
    applyAF conds [k] v os xs
      = some (List.zipWith
          (fun o x => if elemMatches conds o then patchTop [(k, v)] x else x) os xs) := by
  induction h with
  | nil => rfl
  | cons ho hrest ih =>
      rename_i o x os' xs'
      by_cases hm : elemMatches conds o = true
      · obtain ⟨fs, hfs⟩ := ho hm
        subst hfs
        simp only [applyAF, hm, if_true, List.zipWith_cons_cons, ih]
        simp [setPath, patchTop, setAll, Option.bind]
      · simp only [applyAF, hm, if_false, List.zipWith_cons_cons, ih,
          Bool.false_eq_true]
        simp [Option.bind]

theorem forall2_patch_step (conds : List (List String × BVal)) (k : String) (v : BVal)
    (os xs : List BVal)
    (h : List.Forall₂ (fun o x => elemMatches conds o = true → ∃ fs, x = .doc fs) os xs) :
    List.Forall₂ (fun o x => elemMatches conds o = true → ∃ fs, x = .doc fs) os
      (List.zipWith (fun o x => if elemMatches conds o then patchTop [(k, v)] x else x) os xs) := by
  induction h with
  | nil => exact List.Forall₂.nil
  | cons ho hrest ih =>
      rename_i o x os' xs'
      refine List.Forall₂.cons ?_ ih
      intro hm
      obtain ⟨fs, hfs⟩ := ho hm
      subst hfs
      simp [hm, patchTop]

theorem patchTop_nil (x : BVal) : patchTop [] x = x := by
  cases x <;> rfl

theorem zipWith_patch_nil (conds : List (List String × BVal)) (os xs : List BVal)
    (h : List.Forall₂ (fun o x => elemMatches conds o = true → ∃ fs, x = .doc fs) os xs) :
    List.zipWith (fun o x => if elemMatches conds o then patchTop [] x else x) os xs = xs := by
  induction h with
  | nil => rfl
  | cons ho hrest ih =>
      rename_i o x os' xs'
      rw [List.zipWith_cons_cons, ih, patchTop_nil, ite_self]

theorem zipWith_patch_comp (conds : List (List String × BVal)) (kv : String × BVal)
    (rest : List (String × BVal)) (os xs : List BVal)
    (h : List.Forall₂ (fun o x => elemMatches conds o = true → ∃ fs, x = .doc fs) os xs) :
    List.zipWith (fun o x => if elemMatches conds o then patchTop rest x else x) os
        (List.zipWith (fun o x => if elemMatches conds o then patchTop [kv] x else x) os xs)
      = List.zipWith (fun o x => if elemMatches conds o then patchTop (kv :: rest) x else x)
          os xs := by
  induction h with
  | nil => rfl
  | cons ho hrest ih =>
      rename_i o x os' xs'
      by_cases hm : elemMatches conds o = true
      · obtain ⟨fs, hfs⟩ := ho hm
        subst hfs
        simp only [List.zipWith_cons_cons, hm, if_true, ih]
        simp [patchTop, setAll]
      · simp [hm, ih]

theorem zipWith_self {α : Type} (f : α → α → α) (l : List α) :
    List.zipWith f l l = l.map (fun x => f x x) := by
  induction l with
  | nil => rfl
  | cons x xs ih => simp [ih]

theorem forall2_self (conds : List (List String × BVal)) (rs : List BVal)
    (hdocs : ∀ r ∈ rs, elemMatches conds r = true → ∃ fs, r = .doc fs) :
    List.Forall₂ (fun o x => elemMatches conds o = true → ∃ fs, x = .doc fs) rs rs := by
  induction rs with
  | nil => exact List.Forall₂.nil
  | cons r rest ih =>
      exact List.Forall₂.cons (hdocs r (List.mem_cons_self r rest))
        (ih (fun p hp => hdocs p (List.mem_cons_of_mem r hp)))

/-- One `$[rev]` key of the update document: every review whose pre-update
value satisfies the filter criteria is patched at this field. -/
theorem applyKey_af (q : List (String × BVal)) (crit : List (String × BVal))
    (orig acc : Doc) (k : String) (v : BVal) (os xs : List BVal)
    (hk : '.' ∉ k.data)
    (hcrit : crit ≠ [])
    (horig : getF orig "reviews" = some (.arr os))
    (hacc : getF acc "reviews" = some (.arr xs))
    (hrel : List.Forall₂
      (fun o x => elemMatches (crit.map (fun kv => (splitPath kv.1, kv.2))) o = true →
        ∃ fs, x = .doc fs) os xs) :
    applyKey q [crit.map (fun kv => ("rev." ++ kv.1, kv.2))] orig acc
        ("reviews.$[rev]." ++ k) v
      = .ok (setF acc "reviews" (.arr (List.zipWith
          (fun o x => if elemMatches (crit.map (fun kv => (splitPath kv.1, kv.2))) o
                      then patchTop [(k, v)] x else x) os xs))) := by
  have hie : (crit.map (fun kv => (splitPath kv.1, kv.2))).isEmpty = false := by
    cases crit with
    | nil => exact absurd rfl hcrit
    | cons c rest => rfl
  simp only [applyKey, splitPath_af k hk]
  rw [if_neg (by decide), if_pos (by decide)]
  have hident : afIdent "$[rev]" = "rev" := rfl
  rw [hident, afConds_rev crit, hie]
  simp only [Bool.false_eq_true, if_false]
  rw [horig, hacc]
  simp only
  rw [applyAF_zip _ k v os xs hrel]

/-- The whole `$[rev]` `$set` document folded over the update fields:
reviews matched by the pre-update filter evaluation are patched field by
field, the rest stay. -/
theorem afFold (q : List (String × BVal)) (crit : List (String × BVal)) (orig : Doc)
    (os : List BVal) (ud : List (String × BVal)) :
    ∀ (acc : Doc) (xs : List BVal),
    (∀ kv ∈ ud, '.' ∉ kv.1.data) →
    crit ≠ [] →
    getF orig "reviews" = some (.arr os) →
    getF acc "reviews" = some (.arr xs) →
    List.Forall₂
      (fun o x => elemMatches (crit.map (fun kv => (splitPath kv.1, kv.2))) o = true →
        ∃ fs, x = .doc fs) os xs →
    List.foldlM
        (fun acc kv => applyKey q [crit.map (fun kv => ("rev." ++ kv.1, kv.2))]
          orig acc kv.1 kv.2) acc
        (ud.map (fun kv => ("reviews.$[rev]." ++ kv.1, kv.2)))
      = .ok (setF acc "reviews" (.arr (List.zipWith
          (fun o x => if elemMatches (crit.map (fun kv => (splitPath kv.1, kv.2))) o
                      then patchTop ud x else x) os xs))) := by
  induction ud with
  | nil =>
      intro acc xs hk hcrit horig hacc hrel
      simp only [List.map_nil, List.foldlM_nil]
      rw [zipWith_patch_nil _ os xs hrel, setF_eq_of_getF acc "reviews" _ hacc]
      rfl
  | cons kv rest ih =>
      intro acc xs hk hcrit horig hacc hrel
      simp only [List.map_cons, List.foldlM_cons]
      rw [applyKey_af q crit orig acc kv.1 kv.2 os xs
        (hk kv (List.mem_cons_self kv rest)) hcrit horig hacc hrel]
      have hacc' := getF_setF_self acc "reviews"
        (BVal.arr (List.zipWith
          (fun o x => if elemMatches (crit.map (fun kv => (splitPath kv.1, kv.2))) o
                      then patchTop [(kv.1, kv.2)] x else x) os xs))
      have hrel' := forall2_patch_step _ kv.1 kv.2 os xs hrel
      have hrest : ∀ p ∈ rest, '.' ∉ p.1.data :=
        fun p hp => hk p (List.mem_cons_of_mem kv hp)
      have hstep := ih (setF acc "reviews" _) _ hrest hcrit horig hacc' hrel'
      refine hstep.trans ?_
      rw [setF_setF, zipWith_patch_comp _ (kv.1, kv.2) rest os xs hrel]

/-- The arrayFilters update document of update_review_array_filters passes
the server-side validations whenever criteria and fields are non-empty
mappings of plain review field names. -/
theorem urafs_validations (crit nd : List (String × BVal))
    (hcrit : crit ≠ []) (hne : nd ≠ [])
    (hk : ∀ kv ∈ nd, '.' ∉ kv.1.data) :
    ([crit.map (fun kv => ("rev." ++ kv.1, kv.2))].any (fun fd => fd.isEmpty) = false)
    ∧ ([crit.map (fun kv => ("rev." ++ kv.1, kv.2))].any
        (fun fd => !usedIdent (nd.map (fun kv => ("reviews.$[rev]." ++ kv.1, kv.2)))
          (identOf fd)) = false) := by
  cases crit with
  | nil => exact absurd rfl hcrit
  | cons c crest =>
      cases nd with
      | nil => exact absurd rfl hne
      | cons kv ndrest =>
          constructor
          · rfl
          · have hident : identOf (("rev." ++ c.1, c.2) ::
                crest.map (fun kv => ("rev." ++ kv.1, kv.2))) = "rev" := rfl
            have hused : usedIdent
                (("reviews.$[rev]." ++ kv.1, kv.2) ::
                  ndrest.map (fun kv => ("reviews.$[rev]." ++ kv.1, kv.2))) "rev"
                = true := by
              unfold usedIdent
              rw [List.any_eq_true]
              refine ⟨("reviews.$[rev]." ++ kv.1, kv.2), by simp, ?_⟩
              rw [splitPath_af kv.1 (hk kv (List.mem_cons_self kv ndrest))]
              have hx : ("$[" ++ "rev" ++ "]" : String) = "$[rev]" := rfl
              rw [hx]
              exact List.elem_eq_true_of_mem (by simp)
            simp only [List.map_cons, List.any_cons, List.any_nil, Bool.or_false]
            rw [hident, hused]
            rfl

/-- The review array after an arrayFilters merge patch: exactly the
reviews satisfying the criteria are patched with the supplied fields. -/
def patchReviews (crit nd : List (String × BVal)) (m : Doc) (rs : List BVal) : Doc :=
  setF m "reviews" (.arr (rs.map (fun r => if matchesCrit crit r then patchTop nd r else r)))

/-- update_review_array_filters on a decomposed store: the call succeeds
and patches exactly the reviews whose pre-update value satisfies the
filter criteria. -/
theorem urafs_ok (s : Store) (a : List Doc) (m : Doc) (b : List Doc) (sk : String)
    (crit nd : List (String × BVal)) (rs : List BVal)
    (hs : s.docs = a ++ m :: b)
    (ha : ∀ d ∈ a, matchFilter [("sku", .str sk)] d = false)
    (hm : matchFilter [("sku", .str sk)] m = true)
    (hrev : getF m "reviews" = some (.arr rs))
    (hcrit : crit ≠ []) (hne : nd ≠ [])
    (hk : ∀ kv ∈ nd, '.' ∉ kv.1.data)
    (hdocs : ∀ r ∈ rs, matchesCrit crit r = true → ∃ fs, r = .doc fs) :
    update_review_array_filters s sk crit nd
      = .ok ({ s with docs := a ++ patchReviews crit nd m rs :: b },
             some (removeF "_id" (patchReviews crit nd m rs))) := by
  have hval := urafs_validations crit nd hcrit hne hk
  have hdocs' : ∀ r ∈ rs,
      elemMatches (crit.map (fun kv => (splitPath kv.1, kv.2))) r = true →
        ∃ fs, r = .doc fs := by
    intro r hr
    rw [elemMatches_crit]
    exact hdocs r hr
  have hrel := forall2_self (crit.map (fun kv => (splitPath kv.1, kv.2))) rs hdocs'
  have happ : applySet [("sku", .str sk)] [crit.map (fun kv => ("rev." ++ kv.1, kv.2))]
      (nd.map (fun kv => ("reviews.$[rev]." ++ kv.1, kv.2))) m
      = .ok (patchReviews crit nd m rs) := by
    have h1 := afFold [("sku", .str sk)] crit m rs nd m rs hk hcrit hrev hrev hrel
    rw [zipWith_self] at h1
    refine h1.trans ?_
    unfold patchReviews
    simp only [elemMatches_crit]
  have hne' : nd.map (fun kv => ("reviews.$[rev]." ++ kv.1, kv.2)) ≠ [] := by
    cases nd with
    | nil => exact absurd rfl hne
    | cons kv rest => simp
  have hup := update_one_decomp s [("sku", .str sk)] _ _ a m _ b hs ha hm hne'
    hval.1 hval.2 happ
  have hsku' : getF (patchReviews crit nd m rs) "sku" = getF m "sku" :=
    getF_setF_ne m "reviews" "sku" _ (by decide)
  have hmatch' : matchFilter [("sku", .str sk)] (patchReviews crit nd m rs) = true := by
    rw [matchFilter_sku, matchSku_congr _ m (.str sk) hsku', ← matchFilter_sku]
    exact hm
  have hfind : find_one { s with docs := a ++ patchReviews crit nd m rs :: b }
      [("sku", .str sk)] = some (patchReviews crit nd m rs) := by
    unfold find_one
    exact find_decomp a _ b ha hmatch'
  simp [update_review_array_filters, hup, find_one_noid, hfind]

theorem update_one_nomatch (s : Store) (filter fields : List (String × BVal))
    (afs : List (List (String × BVal)))
    (hne : fields ≠ [])
    (hafs1 : afs.any (fun fd => fd.isEmpty) = false)
    (hafs2 : afs.any (fun fd => !usedIdent fields (identOf fd)) = false)
    (hnone : ∀ d ∈ s.docs, matchFilter filter d = false) :
    update_one s filter fields afs = .ok ({ s with docs := s.docs }, 0) := by
  have hio : fields.isEmpty = false := by
    cases fields with
    | nil => exact absurd rfl hne
    | cons kv rest => rfl
  unfold update_one
  simp only [hio, hafs1, hafs2, Bool.false_eq_true, if_false,
    updateFirst_none hnone]
  rfl

set_option maxHeartbeats 1000000 in
/-- C4: with non-empty criteria and fields over plain review field names,
(1) on an existing product updateReviewsByFilter patches EVERY review
satisfying the criteria (all N matches, via the pointwise map over the
whole array), (2) when zero reviews satisfy the criteria on an existing
product the call succeeds and the store and returned product are
unchanged, and (3) NotFound is raised exactly when no document matches
the sku. -/
theorem C4_array_filters_semantics :
    (∀ (s : Store) (a : List Doc) (m : Doc) (b : List Doc) (sk : String)
        (crit nd : List (String × BVal)) (rs : List BVal),
      s.docs = a ++ m :: b →
      (∀ d ∈ a, matchFilter [("sku", .str sk)] d = false) →
      matchFilter [("sku", .str sk)] m = true →
      getF m "reviews" = some (.arr rs) →
      crit ≠ [] → nd ≠ [] →
      (∀ kv ∈ nd, '.' ∉ kv.1.data) →
      (∀ r ∈ rs, matchesCrit crit r = true → ∃ fs, r = .doc fs) →
      update_review_array_filters s sk crit nd
        = .ok ({ s with docs := a ++ patchReviews crit nd m rs :: b },
               some (removeF "_id" (patchReviews crit nd m rs))))
  ∧ (∀ (s : Store) (a : List Doc) (m : Doc) (b : List Doc) (sk : String)
        (crit nd : List (String × BVal)) (rs : List BVal),
      s.docs = a ++ m :: b →
      (∀ d ∈ a, matchFilter [("sku", .str sk)] d = false) →
      matchFilter [("sku", .str sk)] m = true →
      getF m "reviews" = some (.arr rs) →
      crit ≠ [] → nd ≠ [] →
      (∀ kv ∈ nd, '.' ∉ kv.1.data) →
      (∀ r ∈ rs, matchesCrit crit r = false) →
      update_review_array_filters s sk crit nd = .ok (s, some (removeF "_id" m)))
  ∧ (∀ (s : Store) (sk : String) (crit nd : List (String × BVal)),
      crit ≠ [] → nd ≠ [] →
      (∀ kv ∈ nd, '.' ∉ kv.1.data) →
      (∀ d ∈ s.docs, matchFilter [("sku", .str sk)] d = false) →
      update_review_array_filters s sk crit nd = .error (not_found sk)) := by
  refine ⟨?_, ?_, ?_⟩
  · intro s a m b sk crit nd rs hs ha hm hrev hcrit hne hk hdocs
    exact urafs_ok s a m b sk crit nd rs hs ha hm hrev hcrit hne hk hdocs
  · intro s a m b sk crit nd rs hs ha hm hrev hcrit hne hk hzero
    have hdocs : ∀ r ∈ rs, matchesCrit crit r = true → ∃ fs, r = .doc fs := by
      intro r hr hmat
      rw [hzero r hr] at hmat
      cases hmat
    have h1 := urafs_ok s a m b sk crit nd rs hs ha hm hrev hcrit hne hk hdocs
    have hmap : rs.map (fun r => if matchesCrit crit r then patchTop nd r else r) = rs := by
      have hpt : ∀ r ∈ rs, (if matchesCrit crit r then patchTop nd r else r) = r := by
        intro r hr
        rw [hzero r hr]
        simp
      rw [List.map_congr_left hpt]
      simp
    have hpr : patchReviews crit nd m rs = m := by
      unfold patchReviews
      rw [hmap]
      exact setF_eq_of_getF m "reviews" _ hrev
    have hstore : ({ s with docs := a ++ m :: b } : Store) = s := by
      obtain ⟨sdocs, snext, suniq⟩ := s
      simp only at hs ⊢
      rw [← hs]
    rw [h1, hpr, hstore]
  · intro s sk crit nd hcrit hne hk hnone
    have hval := urafs_validations crit nd hcrit hne hk
    have hne' : nd.map (fun kv => ("reviews.$[rev]." ++ kv.1, kv.2)) ≠ [] := by
      cases nd with
      | nil => exact absurd rfl hne
      | cons kv rest => simp
    have hup := update_one_nomatch s [("sku", .str sk)] _ _ hne' hval.1 hval.2 hnone
    simp [update_review_array_filters, hup]

/-- Witness for C4 at concrete stores: (1) a filter matching two of three
reviews patches both and leaves the third, (2) a filter matching nothing
on an existing product succeeds with the store and product unchanged,
(3) a missing product yields NotFound. -/
theorem C4_witness :
    update_review_array_filters
        ⟨[[("sku", .str "A"),
           ("reviews", .arr [.doc [("review_id", .str "r1"), ("rating", .int 3)],
                             .doc [("review_id", .str "r1"), ("rating", .int 5)],
                             .doc [("review_id", .str "r2"), ("rating", .int 2)]])]],
          1, true⟩ "A" [("review_id", .str "r1")] [("rating", .int 1)]
      = .ok (⟨[patchReviews [("review_id", .str "r1")] [("rating", .int 1)]
                 [("sku", .str "A"),
                  ("reviews", .arr [.doc [("review_id", .str "r1"), ("rating", .int 3)],
                                    .doc [("review_id", .str "r1"), ("rating", .int 5)],
                                    .doc [("review_id", .str "r2"), ("rating", .int 2)]])]
                 [.doc [("review_id", .str "r1"), ("rating", .int 3)],
                  .doc [("review_id", .str "r1"), ("rating", .int 5)],
                  .doc [("review_id", .str "r2"), ("rating", .int 2)]]],
               1, true⟩,
             some (removeF "_id"
               (patchReviews [("review_id", .str "r1")] [("rating", .int 1)]
                 [("sku", .str "A"),
                  ("reviews", .arr [.doc [("review_id", .str "r1"), ("rating", .int 3)],
                                    .doc [("review_id", .str "r1"), ("rating", .int 5)],
                                    .doc [("review_id", .str "r2"), ("rating", .int 2)]])]
                 [.doc [("review_id", .str "r1"), ("rating", .int 3)],
                  .doc [("review_id", .str "r1"), ("rating", .int 5)],
                  .doc [("review_id", .str "r2"), ("rating", .int 2)]])))
    ∧ update_review_array_filters
        ⟨[[("sku", .str "B"),
           ("reviews", .arr [.doc [("review_id", .str "r2"), ("rating", .int 2)]])]],
          1, true⟩ "B" [("review_id", .str "zz")] [("rating", .int 1)]
      = .ok (⟨[[("sku", .str "B"),
                ("reviews", .arr [.doc [("review_id", .str "r2"), ("rating", .int 2)]])]],
               1, true⟩,
             some (removeF "_id"
               [("sku", .str "B"),
                ("reviews", .arr [.doc [("review_id", .str "r2"), ("rating", .int 2)]])]))
    ∧ update_review_array_filters ⟨[], 0, true⟩ "C"
        [("review_id", .str "r1")] [("rating", .int 1)]
      = .error (not_found "C") := by
  refine ⟨?_, ?_, ?_⟩
  · refine C4_array_filters_semantics.1 _ [] _ [] "A" _ _ _ rfl (by simp) rfl rfl
      (by simp) (by simp) (by decide) ?_
    intro r hr hmat
    simp only [List.mem_cons, List.not_mem_nil, or_false] at hr
    rcases hr with rfl | rfl | rfl <;> exact ⟨_, rfl⟩
  · exact C4_array_filters_semantics.2.1 _ [] _ [] "B" _ _ _ rfl (by simp) rfl rfl
      (by simp) (by simp) (by decide) (by decide)
  · exact C4_array_filters_semantics.2.2 _ "C" _ _ (by simp) (by simp) (by decide) (by simp)

/-
  Lemma kit: the rating pipeline of get_rating_for_sku.
-/

theorem filter_nil_of_all_false {p : Doc → Bool} {l : List Doc}
    (h : ∀ d ∈ l, p d = false) : l.filter p = [] := by
  induction l with
  | nil => rfl
  | cons d ds ih =>
      have hd := h d (List.mem_cons_self d ds)
      simp only [List.filter_cons, hd, Bool.false_eq_true, if_false]
      exact ih (fun x hx => h x (List.mem_cons_of_mem d hx))

theorem flatMap_nil_of {f : Doc → List Doc} {l : List Doc}
    (h : ∀ d ∈ l, f d = []) : l.flatMap f = [] := by
  induction l with
  | nil => rfl
  | cons d ds ih =>
      simp only [List.flatMap_cons, h d (List.mem_cons_self d ds), List.nil_append]
      exact ih (fun x hx => h x (List.mem_cons_of_mem d hx))

/-- C6: ratingForSku collapses the two failure cases into the same outward
error: it returns the very same NotFound both when no document matches the
sku and when documents match but every one of them has zero reviews (an
empty or missing reviews array, which `$unwind` drops). -/
theorem C6_rating_notfound_conflation (s : Store) (sk : String) :
    ((∀ d ∈ s.docs, matchFilter [("sku", .str sk)] d = false) →
      get_rating_for_sku s sk = .error (not_found sk))
  ∧ ((∃ d ∈ s.docs, matchFilter [("sku", .str sk)] d = true) →
      (∀ d ∈ s.docs, matchFilter [("sku", .str sk)] d = true →
        getF d "reviews" = none ∨ getF d "reviews" = some (.arr [])) →
      get_rating_for_sku s sk = .error (not_found sk)) := by
  constructor
  · intro h
    unfold get_rating_for_sku
    rw [filter_nil_of_all_false h]
    rfl
  · intro _ h
    have hun : (s.docs.filter
        (fun d => matchFilter [("sku", .str sk)] d)).flatMap unwindReviews = [] := by
      apply flatMap_nil_of
      intro d hd
      rw [List.mem_filter] at hd
      rcases h d hd.1 hd.2 with hrev | hrev <;> simp [unwindReviews, hrev]
    simp only [get_rating_for_sku, hun]
    rfl

/-- Witness for C6: a nonexistent sku on a nonempty store and an existing
product with zero reviews yield the identical NotFound error. -/
theorem C6_witness :
    get_rating_for_sku
        ⟨[[("_id", .int 0), ("sku", .str "SKU-EMPTY"), ("name", .str "E"),
           ("reviews", .arr [])]], 1, true⟩ "SKU-404"
      = .error (not_found "SKU-404")
    ∧ get_rating_for_sku
        ⟨[[("_id", .int 0), ("sku", .str "SKU-EMPTY"), ("name", .str "E"),
           ("reviews", .arr [])]], 1, true⟩ "SKU-EMPTY"
      = .error (not_found "SKU-EMPTY") :=
  ⟨(C6_rating_notfound_conflation _ "SKU-404").1 (by decide),
   (C6_rating_notfound_conflation _ "SKU-EMPTY").2
     ⟨[("_id", .int 0), ("sku", .str "SKU-EMPTY"), ("name", .str "E"),
       ("reviews", .arr [])], by simp, rfl⟩
     (by intro d hd hm
         simp only [List.mem_singleton] at hd
         subst hd
         right
         rfl)⟩

/-
  Lemma kit: the ratings-summary projection of get_ratings_summary.
-/

/-- The rating values of a review array, as `$reviews.rating` collects
them: the `rating` field of each embedded document, numeric ones only. -/
def ratingsOf (rs : List BVal) : List Frac :=
  (rs.filterMap (fun x =>
    match x with
    | .doc fs => getF fs "rating"
    | _ => none)).filterMap toNum

/-- A document whose reviews field is absent, null or an array (anything
else makes the `$size` stage of the pipeline raise). -/
def reviewsShapeOk (d : Doc) : Bool :=
  match getF d "reviews" with
  | none => true
  | some .null => true
  | some (.arr _) => true
  | _ => false

theorem getF_append_of_none (l1 l2 : Doc) (k : String) (h : getF l1 k = none) :
    getF (l1 ++ l2) k = getF l2 k := by
  induction l1 with
  | nil => rfl
  | cons p fs ih =>
      by_cases hp : p.1 = k
      · simp [getF, hp] at h
      · simp only [getF, hp] at h
        obtain ⟨k₀, v₀⟩ := p
        simp only at hp
        simp only [List.cons_append, getF, hp, if_neg hp]
        exact ih h

theorem getF_inclF_ne (d : Doc) (k k' : String) (h : k ≠ k') :
    getF (inclF d k) k' = none := by
  unfold inclF
  cases getF d k <;> simp [getF, h]

theorem summaryRow_fields (d : Doc) (n avg : BVal) :
    getF (inclF d "sku" ++ inclF d "name" ++ inclF d "price" ++
        [("review_count", n), ("avg_rating", avg)]) "review_count" = some n
    ∧ getF (inclF d "sku" ++ inclF d "name" ++ inclF d "price" ++
        [("review_count", n), ("avg_rating", avg)]) "avg_rating" = some avg := by
  have hrc : getF (inclF d "sku" ++ inclF d "name" ++ inclF d "price") "review_count"
      = none := by
    rw [getF_append_of_none _ _ _ (by
          rw [getF_append_of_none _ _ _ (getF_inclF_ne d "sku" "review_count" (by decide))]
          exact getF_inclF_ne d "name" "review_count" (by decide))]
    exact getF_inclF_ne d "price" "review_count" (by decide)
  have hav : getF (inclF d "sku" ++ inclF d "name" ++ inclF d "price") "avg_rating"
      = none := by
    rw [getF_append_of_none _ _ _ (by
          rw [getF_append_of_none _ _ _ (getF_inclF_ne d "sku" "avg_rating" (by decide))]
          exact getF_inclF_ne d "name" "avg_rating" (by decide))]
    exact getF_inclF_ne d "price" "avg_rating" (by decide)
  constructor
  · rw [getF_append_of_none _ _ _ hrc]
    rfl
  · rw [getF_append_of_none _ _ _ hav]
    simp [getF]

theorem projectSummary_of_missing (d : Doc) (h : getF d "reviews" = none) :
    projectSummary d = .ok (inclF d "sku" ++ inclF d "name" ++ inclF d "price" ++
      [("review_count", .int 0), ("avg_rating", .null)]) := by
  unfold projectSummary
  rw [h]
  rfl

theorem projectSummary_of_null (d : Doc) (h : getF d "reviews" = some .null) :
    projectSummary d = .ok (inclF d "sku" ++ inclF d "name" ++ inclF d "price" ++
      [("review_count", .int 0), ("avg_rating", .null)]) := by
  unfold projectSummary
  rw [h]
  rfl

theorem projectSummary_of_arr (d : Doc) (rs : List BVal)
    (h : getF d "reviews" = some (.arr rs)) :
    projectSummary d = .ok (inclF d "sku" ++ inclF d "name" ++ inclF d "price" ++
      [("review_count", .int rs.length),
       ("avg_rating",
         if 0 < rs.length then avgOf (aggGet ["reviews", "rating"] (.doc d))
         else .null)]) := by
  unfold projectSummary
  rw [h]

theorem avgOf_doc_reviews (d : Doc) (rs : List BVal)
    (h : getF d "reviews" = some (.arr rs)) :
    avgOf (aggGet ["reviews", "rating"] (.doc d))
      = (if (ratingsOf rs).isEmpty then BVal.null
         else .num (Frac.divN (Frac.sumL (ratingsOf rs)) (ratingsOf rs).length)) := by
  have hagg : aggGet ["reviews", "rating"] (.doc d)
      = some (.arr (rs.filterMap (fun x =>
          match x with
          | .doc fs => getF fs "rating"
          | _ => none))) := by
    simp only [aggGet, h, Option.bind]
    congr 2
    apply List.filterMap_congr
    intro x _
    cases x <;> simp [aggGet, Option.bind]
    cases hg : getF _ "rating" <;> rfl
  rw [hagg]
  unfold avgOf ratingsOf
  rfl

theorem mapME_forall2 {f : Doc → Except MErr Doc} {P : Doc → Doc → Prop} :
    ∀ l : List Doc, (∀ d ∈ l, ∃ o, f d = .ok o ∧ P d o) →
    ∃ rows, mapME f l = .ok rows ∧ List.Forall₂ P l rows := by
  intro l
  induction l with
  | nil => exact fun _ => ⟨[], rfl, List.Forall₂.nil⟩
  | cons d ds ih =>
      intro h
      obtain ⟨o, ho, hp⟩ := h d (List.mem_cons_self d ds)
      obtain ⟨rest, hrest, hf⟩ := ih (fun x hx => h x (List.mem_cons_of_mem d hx))
      refine ⟨o :: rest, ?_, List.Forall₂.cons hp hf⟩
      simp only [mapME, ho, hrest]
      rfl

theorem Frac.toRat_divN (a : Frac) (n : Nat) :
    (Frac.divN a n).toRat = a.toRat / (n : ℚ) := by
  unfold Frac.divN Frac.toRat
  push_cast
  rw [div_div]

theorem Frac.toRat_add (a b : Frac) (ha : a.den ≠ 0) (hb : b.den ≠ 0) :
    (Frac.add a b).toRat = a.toRat + b.toRat := by
  unfold Frac.add Frac.toRat
  have ha' : (a.den : ℚ) ≠ 0 := Int.cast_ne_zero.mpr ha
  have hb' : (b.den : ℚ) ≠ 0 := Int.cast_ne_zero.mpr hb
  push_cast
  field_simp

theorem Frac.sumL_den_ne (ns : List Frac) (h : ∀ q ∈ ns, q.den ≠ 0) :
    (Frac.sumL ns).den ≠ 0 := by
  induction ns with
  | nil => exact one_ne_zero
  | cons q rest ih =>
      have hq := h q (List.mem_cons_self q rest)
      have hr := ih (fun x hx => h x (List.mem_cons_of_mem q hx))
      exact mul_ne_zero hq hr

theorem Frac.toRat_sumL (ns : List Frac) (h : ∀ q ∈ ns, q.den ≠ 0) :
    (Frac.sumL ns).toRat = (ns.map Frac.toRat).sum := by
  induction ns with
  | nil =>
      show Frac.toRat ⟨0, 1⟩ = 0
      norm_num [Frac.toRat]
  | cons q rest ih =>
      have hq := h q (List.mem_cons_self q rest)
      have hr : ∀ x ∈ rest, x.den ≠ 0 := fun x hx => h x (List.mem_cons_of_mem q hx)
      show (Frac.add q (Frac.sumL rest)).toRat = _
      rw [Frac.toRat_add q (Frac.sumL rest) hq (Frac.sumL_den_ne rest hr), ih hr]
      simp

/-- C7: over any collection whose reviews fields are arrays (or absent or
null — anything else aborts the pipeline), ratingsSummary returns one row
per product in order, reporting review_count = 0 and avg_rating = null
(never the number 0) for every product with zero reviews or no reviews
field, and for every product with at least one review (all carrying
numeric ratings) an avg_rating whose rational value is exactly the
arithmetic mean of the review ratings. -/
theorem C7_summary_counts_and_means (s : Store)
    (h : ∀ d ∈ s.docs, reviewsShapeOk d = true) :
    ∃ rows, get_ratings_summary s = .ok rows
      ∧ List.Forall₂ (fun d o =>
          ((getF d "reviews" = none ∨ getF d "reviews" = some .null ∨
              getF d "reviews" = some (.arr [])) →
            getF o "review_count" = some (.int 0) ∧ getF o "avg_rating" = some .null
              ∧ getF o "avg_rating" ≠ some (.int 0))
          ∧ (∀ rs, getF d "reviews" = some (.arr rs) → rs ≠ [] →
              (ratingsOf rs).length = rs.length →
              (∀ q ∈ ratingsOf rs, q.den ≠ 0) →
              getF o "review_count" = some (.int (rs.length : Int))
                ∧ ∃ a, getF o "avg_rating" = some (.num a)
                    ∧ a.toRat = ((ratingsOf rs).map Frac.toRat).sum / (rs.length : ℚ)))
        s.docs rows := by
  have hper : ∀ d ∈ s.docs, ∃ o, projectSummary d = .ok o ∧
      (((getF d "reviews" = none ∨ getF d "reviews" = some .null ∨
          getF d "reviews" = some (.arr [])) →
        getF o "review_count" = some (.int 0) ∧ getF o "avg_rating" = some .null
          ∧ getF o "avg_rating" ≠ some (.int 0))
      ∧ (∀ rs, getF d "reviews" = some (.arr rs) → rs ≠ [] →
          (ratingsOf rs).length = rs.length →
          (∀ q ∈ ratingsOf rs, q.den ≠ 0) →
          getF o "review_count" = some (.int (rs.length : Int))
            ∧ ∃ a, getF o "avg_rating" = some (.num a)
                ∧ a.toRat = ((ratingsOf rs).map Frac.toRat).sum / (rs.length : ℚ))) := by
    intro d hd
    have hok := h d hd
    unfold reviewsShapeOk at hok
    cases hrev : getF d "reviews" with
    | none =>
        refine ⟨_, projectSummary_of_missing d hrev, fun _ => ?_, fun rs hrs => ?_⟩
        · refine ⟨(summaryRow_fields d _ _).1, (summaryRow_fields d _ _).2, ?_⟩
          rw [(summaryRow_fields d _ _).2]
          intro hc
          cases Option.some.inj hc
        · cases hrs
    | some v =>
        rw [hrev] at hok
        cases v with
        | null =>
            refine ⟨_, projectSummary_of_null d hrev, fun _ => ?_, fun rs hrs => ?_⟩
            · refine ⟨(summaryRow_fields d _ _).1, (summaryRow_fields d _ _).2, ?_⟩
              rw [(summaryRow_fields d _ _).2]
              intro hc
              cases Option.some.inj hc
            · cases Option.some.inj hrs
        | arr rs =>
            cases rs with
            | nil =>
                refine ⟨_, projectSummary_of_arr d [] hrev, fun _ => ?_, fun rs hrs hne => ?_⟩
                · refine ⟨(summaryRow_fields d _ _).1, (summaryRow_fields d _ _).2, ?_⟩
                  rw [(summaryRow_fields d _ _).2]
                  intro hc
                  cases Option.some.inj hc
                · cases BVal.arr.inj (Option.some.inj hrs)
                  exact absurd rfl hne
            | cons r rest =>
                refine ⟨_, projectSummary_of_arr d (r :: rest) hrev,
                  fun hcase => ?_, fun rs hrs hne hlen hden => ?_⟩
                · rcases hcase with hc | hc | hc
                  · cases hc
                  · cases Option.some.inj hc
                  · cases BVal.arr.inj (Option.some.inj hc)
                · cases BVal.arr.inj (Option.some.inj hrs)
                  refine ⟨(summaryRow_fields d _ _).1, ?_⟩
                  have hpos : 0 < (r :: rest).length := by simp
                  have hie : (ratingsOf (r :: rest)).isEmpty = false := by
                    cases hrat : ratingsOf (r :: rest) with
                    | nil =>
                        rw [hrat] at hlen
                        cases hlen
                    | cons q qs => rfl
                  refine ⟨Frac.divN (Frac.sumL (ratingsOf (r :: rest)))
                    (ratingsOf (r :: rest)).length, ?_, ?_⟩
                  · rw [(summaryRow_fields d _ _).2]
                    rw [if_pos hpos, avgOf_doc_reviews d (r :: rest) hrev, hie]
                    rfl
                  · rw [Frac.toRat_divN, Frac.toRat_sumL _ hden, hlen]
        | str a => cases hok
        | num a => cases hok
        | bool a => cases hok
        | doc fs => cases hok
  obtain ⟨rows, hrows, hfa⟩ := mapME_forall2 s.docs hper
  refine ⟨rows, ?_, hfa⟩
  simp [get_ratings_summary, hrows]

/-- Witness for C7: a two-product store — one product with an empty reviews
array, one with a single rated review — satisfies the shape hypothesis and
ratingsSummary succeeds. -/
theorem C7_witness :
    (∀ d ∈ (⟨[[("_id", BVal.int 0), ("sku", .str "A"), ("name", .str "A"),
          ("reviews", .arr [])],
         [("_id", BVal.int 1), ("sku", .str "B"), ("name", .str "B"),
          ("reviews", .arr [.doc [("review_id", .str "r1"),
            ("rating", BVal.int 3)]])]], 2, true⟩ : Store).docs,
        reviewsShapeOk d = true)
    ∧ ∃ rows, get_ratings_summary
        ⟨[[("_id", BVal.int 0), ("sku", .str "A"), ("name", .str "A"),
           ("reviews", .arr [])],
          [("_id", BVal.int 1), ("sku", .str "B"), ("name", .str "B"),
           ("reviews", .arr [.doc [("review_id", .str "r1"),
             ("rating", BVal.int 3)]])]], 2, true⟩ = .ok rows := by
  refine ⟨by decide, ?_⟩
  obtain ⟨rows, h1, _⟩ := C7_summary_counts_and_means
    ⟨[[("_id", BVal.int 0), ("sku", .str "A"), ("name", .str "A"),
       ("reviews", .arr [])],
      [("_id", BVal.int 1), ("sku", .str "B"), ("name", .str "B"),
       ("reviews", .arr [.doc [("review_id", .str "r1"),
         ("rating", BVal.int 3)]])]], 2, true⟩ (by decide)
  exact ⟨rows, h1⟩
